import Mathlib

/-!
Verification of the table-driven random resolution engine of `dicebot.py`
(dice-expression evaluator, oracle, biome transition sampler, encounter
table compiler and resolver, inline dice substitution, conversation-flow
entry handlers).

The Python source is shallowly embedded: strings are `String`/`List Char`,
Python ints are `Int`/`Nat`, Python floats (used only for exactly
representable dyadic weight arithmetic) are `ℚ`, `random.randint(1, n)` is
modelled by an injected draw stream `g : Nat → Nat` as `g i % n + 1`
(covering exactly the values `1..n`), and exceptions are `Except String`.
Regex digits `\d` are modelled as the ASCII digits `0-9` that all inputs of
this repository use.
-/

namespace Dicebot

/-- Python whitespace (`str.isspace` / regex `\s` on `str` patterns). -/
def isPyWs (c : Char) : Bool :=
  let n := c.val
  (9 ≤ n && n ≤ 13) || n == 32 || (28 ≤ n && n ≤ 31) || n == 133 || n == 160 ||
    n == 0x1680 || (0x2000 ≤ n && n ≤ 0x200a) || n == 0x2028 || n == 0x2029 ||
    n == 0x202f || n == 0x205f || n == 0x3000

/-- ASCII decimal digit, the `\d` of this repository's regexes. -/
def isAsciiDigit (c : Char) : Bool :=
  '0' ≤ c && c ≤ '9'

/-- Python `str.strip()` on a character list. -/
def pyStrip (l : List Char) : List Char :=
  ((l.dropWhile isPyWs).reverse.dropWhile isPyWs).reverse

/-- Python `str.strip()` on a `String`. -/
def pyStripStr (s : String) : String :=
  String.mk (pyStrip s.toList)

/-- Python `str.lower` on one character, for the ASCII and Latin-1 letters
this repository's data uses (other characters are left unchanged). -/
def pyLowerChar (c : Char) : Char :=
  if 'A' ≤ c && c ≤ 'Z' then Char.ofNat (c.toNat + 32)
  else if 0xC0 ≤ c.val && c.val ≤ 0xDE && c.val != 0xD7 then Char.ofNat (c.toNat + 32)
  else c

/-- Python `str.lower` on a character list. -/
def pyLower (l : List Char) : List Char :=
  l.map pyLowerChar

/-- `int(token)` for a run of ASCII digits. -/
def digitsToNat (l : List Char) : Nat :=
  l.foldl (fun a c => 10 * a + (c.toNat - 48)) 0

/-- `", ".join(map(str, rolls))`. -/
def joinCommaNat : List Nat → String
  | [] => ""
  | [n] => toString n
  | n :: rest => toString n ++ ", " ++ joinCommaNat rest

/-- `", ".join(strs)`. -/
def joinCommaStr : List String → String
  | [] => ""
  | [s] => s
  | s :: rest => s ++ ", " ++ joinCommaStr rest

/-- `" ".join(strs)`. -/
def joinSpaceStr : List String → String
  | [] => ""
  | [s] => s
  | s :: rest => s ++ " " ++ joinSpaceStr rest

/-- Whether an `Except` is an error (a raised exception). -/
def isErr : Except String α → Bool
  | .error _ => true
  | .ok _ => false

/-! ## Dice expression evaluator (`parse_roll_expression`, lines 26-91) -/

/-- A character allowed by `_ROLL_ALLOWED = ^[0-9dDwW+\-\s]+$`. -/
def isAllowedRollChar (c : Char) : Bool :=
  isAsciiDigit c || c == 'd' || c == 'D' || c == 'w' || c == 'W' ||
    c == '+' || c == '-' || isPyWs c

/-- Group 2 of `_ROLL_TERM = ([+\-]?)(\d+[dw]\d+|\d+)` (case-insensitive):
either a dice token `count`-separator-`sides` or a flat integer token.
Digit runs are kept verbatim so the exact matched text can be rebuilt. -/
inductive RollTok where
  | dice (countDigits : List Char) (sep : Char) (sidesDigits : List Char)
  | flat (digits : List Char)
deriving DecidableEq, Repr

/-- One match of `_ROLL_TERM`: optional sign group plus the token group. -/
structure RollTerm where
  sign : Option Char
  tok : RollTok
deriving DecidableEq, Repr

/-- The dice-separator letters `[dw]` with `re.IGNORECASE`. -/
def isSepChar (c : Char) : Bool :=
  c == 'd' || c == 'D' || c == 'w' || c == 'W'

/-- Group 2 of `_ROLL_TERM` anchored at the head of `cs1` (after the optional
sign): first tries the maximal `\d+[dw]\d+`, otherwise falls back to the
maximal `\d+`.  Returns the term and the unconsumed remainder. -/
def matchTokAt (sgn : Option Char) (cs1 : List Char) : Option (RollTerm × List Char) :=
  if cs1.takeWhile isAsciiDigit = [] then none
  else
    match cs1.dropWhile isAsciiDigit with
    | c :: cs3 =>
      if isSepChar c then
        if cs3.takeWhile isAsciiDigit = [] then
          some (⟨sgn, .flat (cs1.takeWhile isAsciiDigit)⟩, c :: cs3)
        else
          some (⟨sgn, .dice (cs1.takeWhile isAsciiDigit) c (cs3.takeWhile isAsciiDigit)⟩,
            cs3.dropWhile isAsciiDigit)
      else some (⟨sgn, .flat (cs1.takeWhile isAsciiDigit)⟩, c :: cs3)
    | [] => some (⟨sgn, .flat (cs1.takeWhile isAsciiDigit)⟩, [])

/-- Attempt of `_ROLL_TERM = ([+\-]?)(\d+[dw]\d+|\d+)` anchored at the head
of `cs`; mirrors the backtracking engine, which takes the sign if present
and fails if no digits follow the optional sign. -/
def matchTermAt (cs : List Char) : Option (RollTerm × List Char) :=
  match cs with
  | [] => none
  | c :: rest =>
    if c == '+' || c == '-' then matchTokAt (some c) rest
    else matchTokAt none (c :: rest)

theorem dropWhile_length_le (p : Char → Bool) (l : List Char) :
    (l.dropWhile p).length ≤ l.length :=
  (List.dropWhile_sublist p).length_le

theorem takeWhile_drop_len (p : Char → Bool) (l : List Char) :
    (l.takeWhile p).length + (l.dropWhile p).length = l.length := by
  induction l with
  | nil => simp
  | cons a l ih =>
    by_cases h : p a
    · simp [List.takeWhile_cons, List.dropWhile_cons, h]
      omega
    · simp [List.takeWhile_cons, List.dropWhile_cons, h]

theorem matchTokAt_rest_lt (sgn : Option Char) (cs1 : List Char) (t : RollTerm)
    (rest : List Char) (h : matchTokAt sgn cs1 = some (t, rest)) :
    rest.length < cs1.length := by
  have hsplit := takeWhile_drop_len isAsciiDigit cs1
  unfold matchTokAt at h
  split at h
  · simp at h
  · rename_i hd
    have hlen : 1 ≤ (cs1.takeWhile isAsciiDigit).length := by
      rcases hx : cs1.takeWhile isAsciiDigit with _ | ⟨y, ys⟩
      · exact absurd hx hd
      · simp
    split at h
    · rename_i c cs3 hc2
      rw [hc2] at hsplit
      simp only [List.length_cons] at hsplit
      split at h
      · split at h
        · simp only [Option.some.injEq, Prod.mk.injEq] at h
          obtain ⟨h1, h2⟩ := h
          subst h2
          simp only [List.length_cons]
          omega
        · simp only [Option.some.injEq, Prod.mk.injEq] at h
          obtain ⟨h1, h2⟩ := h
          subst h2
          have h3 : (cs3.dropWhile isAsciiDigit).length ≤ cs3.length :=
            dropWhile_length_le _ _
          omega
      · simp only [Option.some.injEq, Prod.mk.injEq] at h
        obtain ⟨h1, h2⟩ := h
        subst h2
        simp only [List.length_cons]
        omega
    · rename_i hc2
      rw [hc2] at hsplit
      simp only [List.length_nil] at hsplit
      simp only [Option.some.injEq, Prod.mk.injEq] at h
      obtain ⟨h1, h2⟩ := h
      subst h2
      simp only [List.length_nil]
      omega

theorem matchTermAt_rest_lt (cs : List Char) (t : RollTerm) (rest : List Char)
    (h : matchTermAt cs = some (t, rest)) : rest.length < cs.length := by
  unfold matchTermAt at h
  split at h
  · simp at h
  · rename_i c cs0
    split at h
    · have := matchTokAt_rest_lt _ _ _ _ h
      simp only [List.length_cons]
      omega
    · exact matchTokAt_rest_lt _ _ _ _ h

/-- Scanner of `_ROLL_TERM.finditer`, structurally recursive on a fuel that
bounds the number of scan steps (each step consumes at least one character,
so `cs.length` fuel is always enough — see `findTerms_eq`). -/
def findTermsFuel : Nat → List Char → List RollTerm
  | 0, _ => []
  | fuel + 1, cs =>
    match matchTermAt cs with
    | some (t, rest) => t :: findTermsFuel fuel rest
    | none =>
      match cs with
      | [] => []
      | _ :: rest => findTermsFuel fuel rest

/-- `_ROLL_TERM.finditer(compact)`: non-overlapping leftmost matches,
advancing one character past positions where no match starts. -/
def findTerms (cs : List Char) : List RollTerm :=
  findTermsFuel cs.length cs

theorem findTermsFuel_nil (fuel : Nat) : findTermsFuel fuel [] = [] := by
  cases fuel with
  | zero => rfl
  | succ n => rfl

theorem findTermsFuel_irrel :
    ∀ (f1 : Nat) (cs : List Char) (f2 : Nat), cs.length ≤ f1 → cs.length ≤ f2 →
      findTermsFuel f1 cs = findTermsFuel f2 cs := by
  intro f1
  induction f1 with
  | zero =>
    intro cs f2 h1 h2
    have : cs = [] := List.length_eq_zero.mp (Nat.le_zero.mp h1)
    subst this
    rw [findTermsFuel_nil, findTermsFuel_nil]
  | succ f ih =>
    intro cs f2 h1 h2
    rcases cs with _ | ⟨c, rest0⟩
    · rw [findTermsFuel_nil, findTermsFuel_nil]
    · rcases f2 with _ | f2
      · simp at h2
      · simp only [findTermsFuel]
        rcases hm : matchTermAt (c :: rest0) with _ | ⟨t, rest⟩
        · dsimp only
          simp only [List.length_cons] at h1 h2
          rw [ih rest0 f2 (by omega) (by omega)]
        · dsimp only
          have hlt := matchTermAt_rest_lt _ _ _ hm
          simp only [List.length_cons] at h1 h2 hlt
          rw [ih rest f2 (by omega) (by omega)]

/-- One-step unfolding of the term scanner: `findTerms` behaves as the
leftmost-match loop of `finditer`. -/
theorem findTerms_eq (cs : List Char) :
    findTerms cs =
      match matchTermAt cs with
      | some (t, rest) => t :: findTerms rest
      | none =>
        match cs with
        | [] => []
        | _ :: rest => findTerms rest := by
  unfold findTerms
  rcases cs with _ | ⟨c, rest0⟩
  · rfl
  · simp only [List.length_cons, findTermsFuel]
    rcases hm : matchTermAt (c :: rest0) with _ | ⟨t, rest⟩
    · dsimp only [findTerms]
    · dsimp only
      have hlt := matchTermAt_rest_lt _ _ _ hm
      simp only [List.length_cons] at hlt
      rw [findTermsFuel_irrel rest0.length rest rest.length (by omega) (by omega)]

/-- `match.group(0)`: the exact text a term match consumed. -/
def termText (t : RollTerm) : List Char :=
  (match t.sign with
   | some c => [c]
   | none => []) ++
  (match t.tok with
   | .dice d1 sep d2 => d1 ++ [sep] ++ d2
   | .flat d => d)

/-- `sign = -1 if sign_txt == "-" else 1`. -/
def signVal (t : RollTerm) : Int :=
  if t.sign = some '-' then -1 else 1

/-- Number of dice a term contributes to `total_dice_rolled`. -/
def termDice (t : RollTerm) : Nat :=
  match t.tok with
  | .dice d1 _ _ => digitsToNat d1
  | .flat _ => 0

/-- Whether a term violates the per-term bounds
(`count < 1 or count > 100`, `sides < 2 or sides > 100000`). -/
def boundsBad (t : RollTerm) : Bool :=
  match t.tok with
  | .dice d1 _ d2 =>
    decide (digitsToNat d1 < 1) || decide (100 < digitsToNat d1) ||
      decide (digitsToNat d2 < 2) || decide (100000 < digitsToNat d2)
  | .flat _ => false

/-- One `random.randint(1, sides)` draw from the injected stream. -/
def rollDraw (g : Nat → Nat) (idx sides : Nat) : Nat :=
  g idx % sides + 1

/-- `[random.randint(1, sides) for _ in range(count)]`. -/
def diceRolls (g : Nat → Nat) (idx count sides : Nat) : List Nat :=
  (List.range count).map fun j => rollDraw g (idx + j) sides

/-- Mutable state of the evaluation loop of `parse_roll_expression`. -/
structure RollState where
  total : Int
  details : List String
  diceCount : Nat
  rngIdx : Nat
deriving Repr

/-- Trace line of a dice term (lines 74-79). -/
def diceDetailLine (sgn : Int) (count sides : Nat) (rolls : List Nat) : String :=
  let sgnStr := if sgn < 0 then "-" else "+"
  let diceName := toString count ++ "d" ++ toString sides
  if count = 1 then sgnStr ++ diceName ++ ": " ++ toString (rolls.headD 0)
  else sgnStr ++ diceName ++ ": " ++ joinCommaNat rolls ++ " (Summe " ++
    toString rolls.sum ++ ")"

/-- Trace line of a flat term (lines 84-85). -/
def flatDetailLine (v : Int) : String :=
  (if v < 0 then "-" else "+") ++ toString v.natAbs ++ " Mod"

/-- One iteration of the term loop of `parse_roll_expression`
(lines 51-85): bounds checks, dice ceiling check, draws, trace line. -/
def evalTerm (g : Nat → Nat) (st : RollState) (t : RollTerm) : Except String RollState :=
  match t.tok with
  | .dice d1 _ d2 =>
    if digitsToNat d1 < 1 ∨ 100 < digitsToNat d1 then .error "Maximal 100 Würfel pro Term"
    else if digitsToNat d2 < 2 ∨ 100000 < digitsToNat d2 then
      .error "Seitenzahl bitte zwischen 2 und 100000"
    else if 200 < st.diceCount + digitsToNat d1 then
      .error "Zu viele Würfel insgesamt. Maximal 200 pro Ausdruck"
    else
      .ok ⟨st.total +
            ((diceRolls g st.rngIdx (digitsToNat d1) (digitsToNat d2)).sum : Int) * signVal t,
          st.details ++ [diceDetailLine (signVal t) (digitsToNat d1) (digitsToNat d2)
            (diceRolls g st.rngIdx (digitsToNat d1) (digitsToNat d2))],
          st.diceCount + digitsToNat d1, st.rngIdx + digitsToNat d1⟩
  | .flat ds =>
    .ok ⟨st.total + (digitsToNat ds : Int) * signVal t,
        st.details ++ [flatDetailLine ((digitsToNat ds : Int) * signVal t)],
        st.diceCount, st.rngIdx⟩

/-- The `for t in terms` loop of `parse_roll_expression`. -/
def runTerms (g : Nat → Nat) (st : RollState) : List RollTerm → Except String RollState
  | [] => .ok st
  | t :: ts =>
    match evalTerm g st t with
    | .error e => .error e
    | .ok st1 => runTerms g st1 ts

/-- `raw = (expr or "").strip()`. -/
def rawChars (expr : String) : List Char :=
  pyStrip expr.toList

/-- `compact = re.sub(r"\s+", "", raw)`. -/
def compactChars (expr : String) : List Char :=
  (rawChars expr).filter fun c => !(isPyWs c)

/-- `compact.lower().replace("w", "d")` with a cosmetic leading `+` dropped. -/
def normalizeRollExpr (compact : List Char) : List Char :=
  let l := (pyLower compact).map fun c => if c = 'w' then 'd' else c
  match l with
  | '+' :: rest => rest
  | other => other

/-- `parse_roll_expression(expr)` (dicebot.py lines 30-91), with the random
source injected as `g`. -/
def parse_roll_expression (g : Nat → Nat) (expr : String) :
    Except String (String × Int × List String) :=
  let raw := rawChars expr
  if raw = [] then .error "Leerer Ausdruck"
  else if !(raw.all isAllowedRollChar) then .error "Ungültige Zeichen im Ausdruck"
  else
    let compact := compactChars expr
    let terms := findTerms compact
    if terms = [] then .error "Kein gültiger Ausdruck gefunden"
    else if (terms.map termText).flatten ≠ compact then
      .error "Ungültiges Format. Nutze z.B. 1d20+2d6+3"
    else
      match runTerms g ⟨0, [], 0, 0⟩ terms with
      | .error e => .error e
      | .ok st => .ok (String.mk (normalizeRollExpr compact), st.total, st.details)

/-- Signed value of one matched term: for a dice term the signed sum of its
individual draws, for a flat term its signed integer value. -/
def termValue (g : Nat → Nat) (idx : Nat) (t : RollTerm) : Int :=
  match t.tok with
  | .dice d1 _ d2 =>
    ((diceRolls g idx (digitsToNat d1) (digitsToNat d2)).sum : Int) * signVal t
  | .flat ds => (digitsToNat ds : Int) * signVal t

/-- Sum of the signed term values, threading the draw-stream index the way
the evaluation loop does. -/
def sumTerms (g : Nat → Nat) (idx : Nat) : List RollTerm → Int
  | [] => 0
  | t :: ts => termValue g idx t + sumTerms g (idx + termDice t) ts

/-- The individual draws of one term, each paired with its `sides`. -/
def termDrawPairs (g : Nat → Nat) (idx : Nat) (t : RollTerm) : List (Nat × Nat) :=
  match t.tok with
  | .dice d1 _ d2 =>
    (diceRolls g idx (digitsToNat d1) (digitsToNat d2)).map fun r => (r, digitsToNat d2)
  | .flat _ => []

/-- All individual draws of an expression, each paired with its `sides`. -/
def drawPairs (g : Nat → Nat) (idx : Nat) : List RollTerm → List (Nat × Nat)
  | [] => []
  | t :: ts => termDrawPairs g idx t ++ drawPairs g (idx + termDice t) ts

/-- Total dice count of a term list. -/
def totalDice : List RollTerm → Nat
  | [] => 0
  | t :: ts => termDice t + totalDice ts

/-! ## Generic list facts about `dropWhile`-based stripping -/

theorem dropWhile_dropWhile (p : Char → Bool) (l : List Char) :
    (l.dropWhile p).dropWhile p = l.dropWhile p := by
  induction l with
  | nil => simp
  | cons a l ih =>
    by_cases h : p a
    · simp [List.dropWhile_cons, h, ih]
    · simp [List.dropWhile_cons, h]

theorem dropWhile_head_not (p : Char → Bool) :
    ∀ (l : List Char) (c : Char) (cs : List Char), l.dropWhile p = c :: cs → p c = false := by
  intro l
  induction l with
  | nil => intro c cs h; simp at h
  | cons a l ih =>
    intro c cs h
    by_cases ha : p a
    · rw [List.dropWhile_cons_of_pos ha] at h
      exact ih c cs h
    · rw [List.dropWhile_cons_of_neg ha] at h
      obtain ⟨rfl, rfl⟩ := List.cons.inj h
      exact Bool.of_not_eq_true ha

theorem mem_dropWhile_of_not (p : Char → Bool) :
    ∀ (l : List Char) (c : Char), c ∈ l → p c = false → c ∈ l.dropWhile p := by
  intro l
  induction l with
  | nil => intro c h; simp at h
  | cons a l ih =>
    intro c hmem hc
    by_cases ha : p a
    · rw [List.dropWhile_cons_of_pos ha]
      rcases List.mem_cons.mp hmem with rfl | hmem2
    -- c = a contradicts p c = false vs p a true
      · rw [hc] at ha; simp at ha
      · exact ih c hmem2 hc
    · rw [List.dropWhile_cons_of_neg ha]
      exact hmem

/-- The right-strip stage `(dropWhile p l.reverse).reverse` is a prefix. -/
theorem revDrop_prefix (p : Char → Bool) (l : List Char) :
    ((l.reverse.dropWhile p).reverse) <+: l := by
  have hsuf : l.reverse.dropWhile p <:+ l.reverse := List.dropWhile_suffix p
  have h2 : ((l.reverse.dropWhile p).reverse).reverse <:+ l.reverse := by
    simpa using hsuf
  exact List.reverse_suffix.mp h2

theorem mem_pyStrip_of_not_ws (l : List Char) (c : Char) (hmem : c ∈ l)
    (hc : isPyWs c = false) : c ∈ pyStrip l := by
  unfold pyStrip
  have h1 : c ∈ l.dropWhile isPyWs := mem_dropWhile_of_not _ l c hmem hc
  have h2 : c ∈ (l.dropWhile isPyWs).reverse := List.mem_reverse.mpr h1
  have h3 : c ∈ (l.dropWhile isPyWs).reverse.dropWhile isPyWs :=
    mem_dropWhile_of_not _ _ c h2 hc
  exact List.mem_reverse.mpr h3

theorem mem_of_mem_pyStrip (l : List Char) (c : Char) (hmem : c ∈ pyStrip l) : c ∈ l := by
  unfold pyStrip at hmem
  have h1 := List.mem_reverse.mp hmem
  have h2 : c ∈ (l.dropWhile isPyWs).reverse := (List.dropWhile_sublist _).mem h1
  have h3 : c ∈ l.dropWhile isPyWs := List.mem_reverse.mp h2
  exact (List.dropWhile_sublist _).mem h3

/-- Python `strip` is idempotent. -/
theorem pyStrip_idem (l : List Char) : pyStrip (pyStrip l) = pyStrip l := by
  unfold pyStrip
  rcases hr : ((l.dropWhile isPyWs).reverse.dropWhile isPyWs).reverse with _ | ⟨c, cs⟩
  · simp
  · have hpre : ((l.dropWhile isPyWs).reverse.dropWhile isPyWs).reverse <+: l.dropWhile isPyWs :=
      revDrop_prefix isPyWs (l.dropWhile isPyWs)
    rw [hr] at hpre
    obtain ⟨t, ht⟩ := hpre
    have hhead : isPyWs c = false := by
      rcases hm : l.dropWhile isPyWs with _ | ⟨m, ms⟩
      · rw [hm] at ht; simp at ht
      · have : m = c := by
          rw [hm] at ht
          exact (List.cons.inj ht.symm).1
        rw [← this]
        exact dropWhile_head_not isPyWs l m ms hm
    rw [List.dropWhile_cons_of_neg (by simp [hhead])]
    rw [← hr]
    have : ((l.dropWhile isPyWs).reverse.dropWhile isPyWs).reverse.reverse.dropWhile isPyWs =
        (l.dropWhile isPyWs).reverse.dropWhile isPyWs := by
      rw [List.reverse_reverse]
      exact dropWhile_dropWhile isPyWs _
    rw [this]

/-- A nonempty stripped list contains a non-whitespace character. -/
theorem pyStrip_ne_nil_has_non_ws (l : List Char) (h : pyStrip l ≠ []) :
    ∃ c ∈ pyStrip l, isPyWs c = false := by
  rcases hr : pyStrip l with _ | ⟨c, cs⟩
  · exact absurd hr h
  · refine ⟨c, by simp, ?_⟩
    have hidem := pyStrip_idem l
    rw [hr] at hidem
    unfold pyStrip at hidem
    by_cases hc : isPyWs c = true
    · rw [List.dropWhile_cons_of_pos hc] at hidem
      by_contra hne
      have hlen : ((cs.dropWhile isPyWs).reverse.dropWhile isPyWs).reverse.length =
          (c :: cs).length := by rw [hidem]
      have h1 : (cs.dropWhile isPyWs).length ≤ cs.length := dropWhile_length_le _ _
      have h2 : ((cs.dropWhile isPyWs).reverse.dropWhile isPyWs).length ≤
          (cs.dropWhile isPyWs).reverse.length := dropWhile_length_le _ _
      simp at hlen h2
      omega
    · simp at hc
      exact hc

/-! ## Behaviour of the evaluation loop -/

theorem evalTerm_ok (g : Nat → Nat) (st : RollState) (t : RollTerm) (st1 : RollState)
    (h : evalTerm g st t = .ok st1) :
    st1.total = st.total + termValue g st.rngIdx t ∧
    st1.details.length = st.details.length + 1 ∧
    st1.rngIdx = st.rngIdx + termDice t ∧
    st1.diceCount = st.diceCount + termDice t ∧
    boundsBad t = false := by
  rcases t with ⟨sgn, tok⟩
  rcases tok with ⟨d1, sep, d2⟩ | ds
  · unfold evalTerm at h
    simp only at h
    split at h
    · simp at h
    · split at h
      · simp at h
      · split at h
        · simp at h
        · rename_i h1 h2 h3
          simp only [Except.ok.injEq] at h
          subst h
          refine ⟨rfl, by simp, rfl, rfl, ?_⟩
          simp only [boundsBad, Bool.or_eq_false_iff, decide_eq_false_iff_not]
          push_neg at h1 h2
          omega
  · unfold evalTerm at h
    simp only [Except.ok.injEq] at h
    subst h
    refine ⟨rfl, by simp, by simp [termDice], by simp [termDice], rfl⟩

theorem evalTerm_diceCount_le (g : Nat → Nat) (st : RollState) (t : RollTerm)
    (st1 : RollState) (h : evalTerm g st t = .ok st1) (hst : st.diceCount ≤ 200) :
    st1.diceCount ≤ 200 := by
  rcases t with ⟨sgn, tok⟩
  rcases tok with ⟨d1, sep, d2⟩ | ds
  · unfold evalTerm at h
    simp only at h
    split at h
    · simp at h
    · split at h
      · simp at h
      · split at h
        · simp at h
        · rename_i h1 h2 h3
          simp only [Except.ok.injEq] at h
          subst h
          simp only
          omega
  · unfold evalTerm at h
    simp only [Except.ok.injEq] at h
    subst h
    exact hst

theorem evalTerm_err_iff (g : Nat → Nat) (st : RollState) (t : RollTerm)
    (hst : st.diceCount ≤ 200) :
    isErr (evalTerm g st t) = true ↔
      boundsBad t = true ∨
        (boundsBad t = false ∧ 200 < st.diceCount + termDice t) := by
  rcases t with ⟨sgn, tok⟩
  rcases tok with ⟨d1, sep, d2⟩ | ds
  · unfold evalTerm
    simp only
    constructor
    · intro h
      split at h
      · rename_i h1
        left
        simp only [boundsBad]
        rcases h1 with h1 | h1 <;> simp [h1]
      · split at h
        · rename_i h1 h2
          left
          simp only [boundsBad]
          rcases h2 with h2 | h2 <;> simp [h2]
        · split at h
          · rename_i h1 h2 h3
            right
            refine ⟨?_, ?_⟩
            · simp only [boundsBad, Bool.or_eq_false_iff, decide_eq_false_iff_not]
              push_neg at h1 h2
              omega
            · simpa [termDice] using h3
          · simp [isErr] at h
    · intro h
      split
      · simp [isErr]
      · split
        · simp [isErr]
        · split
          · simp [isErr]
          · rename_i h1 h2 h3
            exfalso
            rcases h with hbad | ⟨hgood, hover⟩
            · simp only [boundsBad, Bool.or_eq_true, decide_eq_true_eq] at hbad
              push_neg at h1 h2
              rcases hbad with ((hb | hb) | hb) | hb <;> omega
            · simp only [termDice] at hover
              exact h3 hover
  · simp [evalTerm, isErr, boundsBad, termDice]
    omega

theorem runTerms_ok (g : Nat → Nat) :
    ∀ (ts : List RollTerm) (st st1 : RollState), runTerms g st ts = .ok st1 →
      st1.total = st.total + sumTerms g st.rngIdx ts ∧
      st1.details.length = st.details.length + ts.length ∧
      (∀ t ∈ ts, boundsBad t = false) := by
  intro ts
  induction ts with
  | nil =>
    intro st st1 h
    simp only [runTerms, Except.ok.injEq] at h
    subst h
    simp [sumTerms]
  | cons t ts ih =>
    intro st st1 h
    simp only [runTerms] at h
    rcases hev : evalTerm g st t with e | stm
    · rw [hev] at h; simp at h
    · rw [hev] at h
      obtain ⟨htot, hdet, hrng, hdc, hbad⟩ := evalTerm_ok g st t stm hev
      obtain ⟨htot2, hdet2, hall⟩ := ih stm st1 h
      refine ⟨?_, ?_, ?_⟩
      · rw [htot2, htot, hrng]
        simp [sumTerms]
        ring
      · rw [hdet2, hdet]
        simp [List.length_cons]
        omega
      · intro u hu
        rcases List.mem_cons.mp hu with rfl | hu2
        · exact hbad
        · exact hall u hu2

theorem runTerms_err_iff (g : Nat → Nat) :
    ∀ (ts : List RollTerm) (st : RollState), st.diceCount ≤ 200 →
      (isErr (runTerms g st ts) = true ↔
        (∃ t ∈ ts, boundsBad t = true) ∨ 200 < st.diceCount + totalDice ts) := by
  intro ts
  induction ts with
  | nil =>
    intro st hst
    simp [runTerms, isErr, totalDice]
    omega
  | cons t ts ih =>
    intro st hst
    simp only [runTerms]
    rcases hev : evalTerm g st t with e | stm
    · simp only [isErr, true_iff]
      have herr : isErr (evalTerm g st t) = true := by rw [hev]; rfl
      rcases (evalTerm_err_iff g st t hst).mp herr with hbad | ⟨_, hover⟩
      · exact Or.inl ⟨t, by simp, hbad⟩
      · right
        simp only [totalDice]
        omega
    · obtain ⟨_, _, _, hdc, hbad⟩ := evalTerm_ok g st t stm hev
      have hle : stm.diceCount ≤ 200 := evalTerm_diceCount_le g st t stm hev hst
      rw [ih stm hle]
      constructor
      · intro h
        rcases h with ⟨u, hu, hbadu⟩ | hover
        · exact Or.inl ⟨u, by simp [hu], hbadu⟩
        · right
          rw [hdc] at hover
          simp only [totalDice]
          omega
      · intro h
        rcases h with ⟨u, hu, hbadu⟩ | hover
        · rcases List.mem_cons.mp hu with rfl | hu2
          · rw [hbad] at hbadu; simp at hbadu
          · exact Or.inl ⟨u, hu2, hbadu⟩
        · right
          rw [hdc]
          simp only [totalDice] at hover
          omega

theorem drawPairs_in_range (g : Nat → Nat) :
    ∀ (ts : List RollTerm) (idx : Nat), (∀ t ∈ ts, boundsBad t = false) →
      ∀ p ∈ drawPairs g idx ts, 1 ≤ p.1 ∧ p.1 ≤ p.2 := by
  intro ts
  induction ts with
  | nil => intro idx hall p hp; simp [drawPairs] at hp
  | cons t ts ih =>
    intro idx hall p hp
    simp only [drawPairs, List.mem_append] at hp
    rcases hp with hp | hp
    · have hbad : boundsBad t = false := hall t (by simp)
      rcases t with ⟨sgn, tok⟩
      rcases tok with ⟨d1, sep, d2⟩ | ds
      · simp only [termDrawPairs, diceRolls, List.mem_map] at hp
        obtain ⟨r, hr, rfl⟩ := hp
        obtain ⟨j, hj, rfl⟩ := hr
        simp only [boundsBad, Bool.or_eq_false_iff, decide_eq_false_iff_not] at hbad
        have hs2 : 2 ≤ digitsToNat d2 := by omega
        constructor
        · simp [rollDraw]
        · have hlt : g (idx + j) % digitsToNat d2 < digitsToNat d2 :=
            Nat.mod_lt _ (by omega)
          simp only [rollDraw]
          omega
      · simp [termDrawPairs] at hp
    · exact ih (idx + termDice t) (fun u hu => hall u (by simp [hu])) p hp

theorem allowedAll_iff (expr : String) :
    (rawChars expr).all isAllowedRollChar = true ↔
      ∀ c ∈ expr.toList, isAllowedRollChar c = true := by
  constructor
  · intro h c hc
    by_cases hw : isPyWs c = true
    · simp [isAllowedRollChar, hw]
    · have hmem : c ∈ rawChars expr :=
        mem_pyStrip_of_not_ws expr.toList c hc (by simpa using hw)
      exact List.all_eq_true.mp h c hmem
  · intro h
    apply List.all_eq_true.mpr
    intro c hc
    exact h c (mem_of_mem_pyStrip expr.toList c hc)

theorem compactChars_ne_nil (expr : String) (h : rawChars expr ≠ []) :
    compactChars expr ≠ [] := by
  obtain ⟨c, hc, hw⟩ := pyStrip_ne_nil_has_non_ws expr.toList h
  intro hcon
  have hmem : c ∈ compactChars expr := by
    unfold compactChars
    apply List.mem_filter.mpr
    exact ⟨hc, by simp [hw]⟩
  rw [hcon] at hmem
  simp at hmem

/-- C1: for every expression string on which `parse_roll_expression` does
not raise, the returned total equals the sum over all matched terms of sign
times the term's value (for a dice term the sum of its individual draws,
for a flat term its integer value), every individual die draw lies in
`[1, sides]`, and the returned trace list contains exactly one line per
matched term. -/
theorem parse_roll_expression_total_trace_draws (g : Nat → Nat) (expr : String)
    (norm : String) (total : Int) (details : List String)
    (h : parse_roll_expression g expr = .ok (norm, total, details)) :
    total = sumTerms g 0 (findTerms (compactChars expr)) ∧
    details.length = (findTerms (compactChars expr)).length ∧
    ∀ p ∈ drawPairs g 0 (findTerms (compactChars expr)), 1 ≤ p.1 ∧ p.1 ≤ p.2 := by
  simp only [parse_roll_expression] at h
  split at h
  · simp at h
  · split at h
    · simp at h
    · split at h
      · simp at h
      · split at h
        · simp at h
        · rcases hrun : runTerms g ⟨0, [], 0, 0⟩ (findTerms (compactChars expr)) with e | st
          · rw [hrun] at h
            simp at h
          · rw [hrun] at h
            simp only [Except.ok.injEq, Prod.mk.injEq] at h
            obtain ⟨hn, ht, hd⟩ := h
            obtain ⟨htot, hdet, hbad⟩ := runTerms_ok g _ _ _ hrun
            refine ⟨?_, ?_, ?_⟩
            · rw [← ht, htot]
              simp
            · rw [← hd, hdet]
              simp
            · exact drawPairs_in_range g _ 0 hbad

/-- Draw stream returning 0 everywhere, so that every modelled
`randint(1, n)` draw is 1. -/
def gZero : Nat → Nat := fun _ => 0

/-- Witness for C1: `parse_roll_expression` on `"1d20+2d6+3"` with the
all-zero draw stream succeeds and satisfies the claim at that input. -/
theorem parse_roll_expression_total_trace_draws_witness :
    (6 : Int) = sumTerms gZero 0 (findTerms (compactChars "1d20+2d6+3")) ∧
    (["+1d20: 1", "+2d6: 1, 1 (Summe 2)", "+3 Mod"] : List String).length =
      (findTerms (compactChars "1d20+2d6+3")).length ∧
    ∀ p ∈ drawPairs gZero 0 (findTerms (compactChars "1d20+2d6+3")),
      1 ≤ p.1 ∧ p.1 ≤ p.2 :=
  parse_roll_expression_total_trace_draws gZero "1d20+2d6+3" "1d20+2d6+3" 6
    ["+1d20: 1", "+2d6: 1, 1 (Summe 2)", "+3 Mod"] (by rfl)

/-- C2: `parse_roll_expression` raises (`ValueError`) iff the input is empty
after trimming, or contains a character outside digits, the dice-separator
letters, `+`, `-` and whitespace, or the concatenation of the greedily
matched terms does not reconstruct the whitespace-stripped input, or some
dice term's count lies outside `[1, 100]` or sides outside `[2, 100000]`,
or the total dice count of the expression exceeds 200. -/
theorem parse_roll_expression_error_iff (g : Nat → Nat) (expr : String) :
    isErr (parse_roll_expression g expr) = true ↔
      rawChars expr = [] ∨
      (∃ c ∈ expr.toList, isAllowedRollChar c = false) ∨
      ((findTerms (compactChars expr)).map termText).flatten ≠ compactChars expr ∨
      (∃ t ∈ findTerms (compactChars expr), boundsBad t = true) ∨
      200 < totalDice (findTerms (compactChars expr)) := by
  simp only [parse_roll_expression]
  by_cases h1 : rawChars expr = []
  · rw [if_pos h1]
    simp only [isErr, true_iff]
    exact Or.inl h1
  · rw [if_neg h1]
    by_cases h2 : (rawChars expr).all isAllowedRollChar = true
    · rw [if_neg (by simp [h2])]
      have h2e : ¬ ∃ c ∈ expr.toList, isAllowedRollChar c = false := by
        intro ⟨c, hc, hbad⟩
        have := (allowedAll_iff expr).mp h2 c hc
        rw [this] at hbad
        simp at hbad
      have hcne : compactChars expr ≠ [] := compactChars_ne_nil expr h1
      by_cases h3 : findTerms (compactChars expr) = []
      · rw [if_pos h3]
        simp only [isErr, true_iff]
        right; right; left
        rw [h3]
        simpa using (Ne.symm hcne)
      · rw [if_neg h3]
        by_cases h4 : ((findTerms (compactChars expr)).map termText).flatten = compactChars expr
        · rw [if_neg (by simpa using h4)]
          have hstart : (⟨0, [], 0, 0⟩ : RollState).diceCount ≤ 200 := by simp
          have hloop := runTerms_err_iff g (findTerms (compactChars expr)) ⟨0, [], 0, 0⟩ hstart
          rcases hrun : runTerms g ⟨0, [], 0, 0⟩ (findTerms (compactChars expr)) with e | st
          · rw [hrun] at hloop
            simp only [isErr] at hloop ⊢
            refine ⟨fun _ => ?_, fun _ => trivial⟩
            rcases hloop.mp trivial with hbad | hover
            · right; right; right
              exact Or.inl hbad
            · right; right; right; right
              simpa using hover
          · rw [hrun] at hloop
            simp only [isErr] at hloop ⊢
            have hnd : ¬((∃ t ∈ findTerms (compactChars expr), boundsBad t = true) ∨
                200 < (⟨0, [], 0, 0⟩ : RollState).diceCount +
                  totalDice (findTerms (compactChars expr))) := by
              intro hcon
              simpa using hloop.mpr hcon
            refine ⟨fun hcon => absurd hcon (by simp), fun hcon => ?_⟩
            exfalso
            rcases hcon with hc | hc | hc | hc | hc
            · exact h1 hc
            · exact h2e hc
            · exact hc h4
            · exact hnd (Or.inl hc)
            · exact hnd (Or.inr (by simpa using hc))
        · rw [if_pos (by simpa using h4)]
          simp only [isErr, true_iff]
          right; right; left
          exact h4
    · rw [if_pos (by simpa using h2)]
      simp only [isErr, true_iff]
      right; left
      have : ∃ c ∈ rawChars expr, isAllowedRollChar c = false := by
        by_contra hno
        apply h2
        apply List.all_eq_true.mpr
        intro c hc
        by_contra hcc
        exact hno ⟨c, hc, by simpa using hcc⟩
      obtain ⟨c, hc, hbad⟩ := this
      exact ⟨c, mem_of_mem_pyStrip expr.toList c hc, hbad⟩

/-! ## Oracle system (`oracle_outcome`, lines 190-262) -/

/-- `BASE_CHANCE` (lines 190-202), insertion order preserved. -/
def BASE_CHANCE : List (String × Int) :=
  [("impossible", 1), ("no_way", 5), ("very_unlikely", 15), ("unlikely", 25),
   ("fifty_fifty", 50), ("somewhat_likely", 65), ("likely", 75),
   ("very_likely", 85), ("near_sure", 90), ("a_sure_thing", 95), ("has_to_be", 99)]

/-- `clamp(n, lo, hi) = max(lo, min(hi, n))` (lines 227-228). -/
def clamp (n lo hi : Int) : Int :=
  max lo (min hi n)

/-- Result record of `oracle_outcome`. -/
structure OracleResult where
  roll : Int
  chance : Int
  ex_yes : Int
  ex_no_start : Int
  result : String
  random_event : Bool
deriving DecidableEq, Repr

/-- `oracle_outcome(odds_key, chaos_rank)` (lines 230-262); `none` models the
`KeyError` raised by `BASE_CHANCE[odds_key]` on an unknown key, the d100 is
`g % 100 + 1`, and `int(math.ceil(fail_size / 5))` is the exact ceiling
`(fail_size + 4) / 5` (the float division is exact at these magnitudes). -/
def oracle_outcome (g : Nat) (odds_key : String) (chaos_rank : Int) : Option OracleResult :=
  match BASE_CHANCE.lookup odds_key with
  | none => none
  | some base =>
    let chance := clamp (base + (chaos_rank - 5) * 5) 0 100
    let roll : Int := ((g % 100 : Nat) : Int) + 1
    let ex_yes : Int := if chance = 0 then 0 else max 1 (chance / 5)
    let fail_size := 100 - chance
    let ex_no_size : Int := if fail_size = 0 then 0 else (fail_size + 4) / 5
    let ex_no_start : Int := if ex_no_size = 0 then 101 else 101 - ex_no_size
    let result :=
      if 0 < chance ∧ roll ≤ ex_yes then "Außergewöhnlich Ja"
      else if roll ≤ chance then "Ja"
      else if chance < 100 ∧ ex_no_start ≤ roll then "Außergewöhnlich Nein"
      else "Nein"
    some ⟨roll, chance, ex_yes, ex_no_start, result,
      decide (roll % 11 = 0) && decide (roll ≤ chaos_rank)⟩

/-- C10: for every odds key present in the base-chance table and every chaos
rank, `oracle_outcome` computes `chance = clamp(base + (chaos_rank - 5) * 5,
0, 100)`, its roll lies in `[1, 100]`, the answer is affirmative iff the
roll is at most `chance` (hence never affirmative at `chance = 0`, always at
`chance = 100`), and the result is one of the four oracle strings. -/
theorem oracle_outcome_spec (g : Nat) (key : String) (chaos : Int) (base : Int)
    (hk : BASE_CHANCE.lookup key = some base) :
    ∃ r : OracleResult, oracle_outcome g key chaos = some r ∧
      r.chance = clamp (base + (chaos - 5) * 5) 0 100 ∧
      1 ≤ r.roll ∧ r.roll ≤ 100 ∧
      ((r.result = "Ja" ∨ r.result = "Außergewöhnlich Ja") ↔ r.roll ≤ r.chance) ∧
      (r.result = "Ja" ∨ r.result = "Außergewöhnlich Ja" ∨ r.result = "Nein" ∨
        r.result = "Außergewöhnlich Nein") := by
  unfold oracle_outcome
  rw [hk]
  refine ⟨_, rfl, rfl, ?_, ?_, ?_, ?_⟩
  · simp only
    have : 0 ≤ ((g % 100 : Nat) : Int) := Int.ofNat_nonneg _
    omega
  · simp only
    have : (g % 100) < 100 := Nat.mod_lt _ (by norm_num)
    omega
  · simp only
    set C := clamp (base + (chaos - 5) * 5) 0 100 with hC
    have hC0 : 0 ≤ C := le_max_left _ _
    have hC100 : C ≤ 100 := by
      rw [hC]
      unfold clamp
      exact max_le (by norm_num) (min_le_left _ _)
    set roll : Int := ((g % 100 : Nat) : Int) + 1 with hroll
    have hr1 : 1 ≤ roll := by
      have : 0 ≤ ((g % 100 : Nat) : Int) := Int.ofNat_nonneg _
      omega
    have hr100 : roll ≤ 100 := by
      have : (g % 100) < 100 := Nat.mod_lt _ (by norm_num)
      simp only [hroll]
      omega
    by_cases hA : 0 < C ∧ roll ≤ (if C = 0 then 0 else max 1 (C / 5))
    · rw [if_pos hA]
      have hexy : (if C = 0 then 0 else max 1 (C / 5)) ≤ C := by
        rw [if_neg (by omega)]
        have hd : C / 5 ≤ C := by omega
        exact max_le (by omega) hd
      constructor
      · intro _
        exact le_trans hA.2 hexy
      · intro _
        decide
    · rw [if_neg hA]
      by_cases hJ : roll ≤ C
      · rw [if_pos hJ]
        constructor
        · intro _
          exact hJ
        · intro _
          decide
      · rw [if_neg hJ]
        by_cases hN : C < 100 ∧
            (if (if 100 - C = 0 then (0 : Int) else (100 - C + 4) / 5) = 0 then (101 : Int)
              else 101 - (if 100 - C = 0 then (0 : Int) else (100 - C + 4) / 5)) ≤ roll
        · rw [if_pos hN]
          constructor
          · intro hcon
            rcases hcon with hcon | hcon <;> simp at hcon
          · intro hcon
            exact absurd hcon hJ
        · rw [if_neg hN]
          constructor
          · intro hcon
            rcases hcon with hcon | hcon <;> simp at hcon
          · intro hcon
            exact absurd hcon hJ
  · simp only
    by_cases h1 : 0 < clamp (base + (chaos - 5) * 5) 0 100 ∧
        ((g % 100 : Nat) : Int) + 1 ≤
          (if clamp (base + (chaos - 5) * 5) 0 100 = 0 then 0
            else max 1 (clamp (base + (chaos - 5) * 5) 0 100 / 5))
    · rw [if_pos h1]
      decide
    · rw [if_neg h1]
      by_cases h2 : ((g % 100 : Nat) : Int) + 1 ≤ clamp (base + (chaos - 5) * 5) 0 100
      · rw [if_pos h2]
        decide
      · rw [if_neg h2]
        by_cases h3 : clamp (base + (chaos - 5) * 5) 0 100 < 100 ∧
            (if (if 100 - clamp (base + (chaos - 5) * 5) 0 100 = 0 then (0 : Int)
                  else (100 - clamp (base + (chaos - 5) * 5) 0 100 + 4) / 5) = 0 then (101 : Int)
              else 101 - (if 100 - clamp (base + (chaos - 5) * 5) 0 100 = 0 then (0 : Int)
                else (100 - clamp (base + (chaos - 5) * 5) 0 100 + 4) / 5)) ≤
              ((g % 100 : Nat) : Int) + 1
        · rw [if_pos h3]
          decide
        · rw [if_neg h3]
          decide

/-- Witness for C10: the claim instantiated at `fifty_fifty`, chaos rank 5,
draw stream position 0. -/
theorem oracle_outcome_spec_witness :
    ∃ r : OracleResult, oracle_outcome 0 "fifty_fifty" 5 = some r ∧
      r.chance = clamp (50 + (5 - 5) * 5) 0 100 ∧
      1 ≤ r.roll ∧ r.roll ≤ 100 ∧
      ((r.result = "Ja" ∨ r.result = "Außergewöhnlich Ja") ↔ r.roll ≤ r.chance) ∧
      (r.result = "Ja" ∨ r.result = "Außergewöhnlich Ja" ∨ r.result = "Nein" ∨
        r.result = "Außergewöhnlich Nein") :=
  oracle_outcome_spec 0 "fifty_fifty" 5 50 (by rfl)

/-! ## Category canonicalization (`_canonical_enc_biom`, lines 523-549) -/

/-- Whether `needle` is an initial segment of `t`. -/
def prefOf : List Char → List Char → Bool
  | [], _ => true
  | _ :: _, [] => false
  | a :: as, b :: bs => a == b && prefOf as bs

/-- `needle in t` (Python substring containment) on character lists. -/
def subIn (needle : List Char) : List Char → Bool
  | [] => prefOf needle []
  | c :: rest => prefOf needle (c :: rest) || subIn needle rest

/-- `_canonical_enc_biom(raw)` (lines 523-549): alias matching on the
lowered, stripped input, falling back to the trimmed original. -/
def canonical_enc_biom (raw : String) : String :=
  let t := pyLower (pyStrip raw.toList)
  if subIn "arktis".toList t then "Arktis"
  else if subIn "grasland".toList t then "Grasland"
  else if subIn "hügel".toList t || subIn "huegel".toList t then "Hügel"
  else if subIn "küste".toList t || subIn "kueste".toList t ||
    subIn "küsten".toList t || subIn "kuesten".toList t then "Küste"
  else if subIn "sumpf".toList t then "Sumpf"
  else if subIn "wald".toList t then "Wald"
  else if subIn "wüste".toList t || subIn "wueste".toList t then "Wüste"
  else if subIn "underdark".toList t || subIn "unterreich".toList t then "Unterreich"
  else if subIn "unterwasser".toList t then "Unterwasser"
  else if subIn "stadt".toList t || subIn "dorf".toList t then "Stadt/Dorf"
  else if subIn "berg".toList t then "Berg"
  else pyStripStr raw

/-- C6: the category canonicalization used for table lookup is total (it is
a function into `String`, returning an alias-matched canonical name or the
trimmed original) and idempotent. -/
theorem canonical_enc_biom_idem (s : String) :
    canonical_enc_biom (canonical_enc_biom s) = canonical_enc_biom s := by
  by_cases h1 : subIn "arktis".toList (pyLower (pyStrip s.toList)) = true
  · have hc : canonical_enc_biom s = "Arktis" := by
      simp only [canonical_enc_biom]
      rw [if_pos h1]
    rw [hc]
    decide
  · by_cases h2 : subIn "grasland".toList (pyLower (pyStrip s.toList)) = true
    · have hc : canonical_enc_biom s = "Grasland" := by
        simp only [canonical_enc_biom]
        rw [if_neg h1, if_pos h2]
      rw [hc]
      decide
    · by_cases h3 : (subIn "hügel".toList (pyLower (pyStrip s.toList)) ||
          subIn "huegel".toList (pyLower (pyStrip s.toList))) = true
      · have hc : canonical_enc_biom s = "Hügel" := by
          simp only [canonical_enc_biom]
          rw [if_neg h1, if_neg h2, if_pos h3]
        rw [hc]
        decide
      · by_cases h4 : (subIn "küste".toList (pyLower (pyStrip s.toList)) ||
            subIn "kueste".toList (pyLower (pyStrip s.toList)) ||
            subIn "küsten".toList (pyLower (pyStrip s.toList)) ||
            subIn "kuesten".toList (pyLower (pyStrip s.toList))) = true
        · have hc : canonical_enc_biom s = "Küste" := by
            simp only [canonical_enc_biom]
            rw [if_neg h1, if_neg h2, if_neg h3, if_pos h4]
          rw [hc]
          decide
        · by_cases h5 : subIn "sumpf".toList (pyLower (pyStrip s.toList)) = true
          · have hc : canonical_enc_biom s = "Sumpf" := by
              simp only [canonical_enc_biom]
              rw [if_neg h1, if_neg h2, if_neg h3, if_neg h4, if_pos h5]
            rw [hc]
            decide
          · by_cases h6 : subIn "wald".toList (pyLower (pyStrip s.toList)) = true
            · have hc : canonical_enc_biom s = "Wald" := by
                simp only [canonical_enc_biom]
                rw [if_neg h1, if_neg h2, if_neg h3, if_neg h4, if_neg h5, if_pos h6]
              rw [hc]
              decide
            · by_cases h7 : (subIn "wüste".toList (pyLower (pyStrip s.toList)) ||
                  subIn "wueste".toList (pyLower (pyStrip s.toList))) = true
              · have hc : canonical_enc_biom s = "Wüste" := by
                  simp only [canonical_enc_biom]
                  rw [if_neg h1, if_neg h2, if_neg h3, if_neg h4, if_neg h5, if_neg h6,
                    if_pos h7]
                rw [hc]
                decide
              · by_cases h8 : (subIn "underdark".toList (pyLower (pyStrip s.toList)) ||
                    subIn "unterreich".toList (pyLower (pyStrip s.toList))) = true
                · have hc : canonical_enc_biom s = "Unterreich" := by
                    simp only [canonical_enc_biom]
                    rw [if_neg h1, if_neg h2, if_neg h3, if_neg h4, if_neg h5, if_neg h6,
                      if_neg h7, if_pos h8]
                  rw [hc]
                  decide
                · by_cases h9 : subIn "unterwasser".toList (pyLower (pyStrip s.toList)) = true
                  · have hc : canonical_enc_biom s = "Unterwasser" := by
                      simp only [canonical_enc_biom]
                      rw [if_neg h1, if_neg h2, if_neg h3, if_neg h4, if_neg h5, if_neg h6,
                        if_neg h7, if_neg h8, if_pos h9]
                    rw [hc]
                    decide
                  · by_cases h10 : (subIn "stadt".toList (pyLower (pyStrip s.toList)) ||
                        subIn "dorf".toList (pyLower (pyStrip s.toList))) = true
                    · have hc : canonical_enc_biom s = "Stadt/Dorf" := by
                        simp only [canonical_enc_biom]
                        rw [if_neg h1, if_neg h2, if_neg h3, if_neg h4, if_neg h5, if_neg h6,
                          if_neg h7, if_neg h8, if_neg h9, if_pos h10]
                      rw [hc]
                      decide
                    · by_cases h11 : subIn "berg".toList (pyLower (pyStrip s.toList)) = true
                      · have hc : canonical_enc_biom s = "Berg" := by
                          simp only [canonical_enc_biom]
                          rw [if_neg h1, if_neg h2, if_neg h3, if_neg h4, if_neg h5, if_neg h6,
                            if_neg h7, if_neg h8, if_neg h9, if_neg h10, if_pos h11]
                        rw [hc]
                        decide
                      · have hc : canonical_enc_biom s = pyStripStr s := by
                          simp only [canonical_enc_biom]
                          rw [if_neg h1, if_neg h2, if_neg h3, if_neg h4, if_neg h5, if_neg h6,
                            if_neg h7, if_neg h8, if_neg h9, if_neg h10, if_neg h11]
                        rw [hc]
                        have hlist : (pyStripStr s).toList = pyStrip s.toList := rfl
                        simp only [canonical_enc_biom]
                        rw [hlist, pyStrip_idem]
                        rw [if_neg h1, if_neg h2, if_neg h3, if_neg h4, if_neg h5, if_neg h6,
                          if_neg h7, if_neg h8, if_neg h9, if_neg h10, if_neg h11]
                        show String.mk (pyStrip (pyStripStr s).toList) = pyStripStr s
                        rw [hlist, pyStrip_idem]
                        rfl

/-! ## Biome transition sampler (`roll_biom`, lines 361-420) -/

def SURFACE_BIOMES : List String :=
  ["Arktis", "Küste", "Wüste", "Wald", "Grasland", "Hügel", "Berg", "Sumpf"]

def SPECIAL_BIOMES : List String :=
  ["Unterreich", "Wasser", "Stadt/Dorf"]

def ALL_BIOMES : List String :=
  SURFACE_BIOMES ++ SPECIAL_BIOMES

/-- The `fixed` dict of `roll_biom` (lines 395-399), insertion order kept.
The float weights are exactly representable, so they are embedded as `ℚ`. -/
def biomFixedWeights : List (String × ℚ) :=
  [("Wasser", 5), ("Unterreich", 5), ("Stadt/Dorf", 10)]

/-- The `(choices, weights)` lists `roll_biom` builds before sampling
(lines 391-413), or the `UnknownCategory` `ValueError` (lines 392-393). -/
def roll_biom_dist (current : String) : Except String (List String × List ℚ) :=
  if current ∈ ALL_BIOMES then
    let fixedForRoll := biomFixedWeights.filter fun p => p.1 != current
    let remaining : ℚ := 100 - (66 + (fixedForRoll.map Prod.snd).sum)
    let others := ALL_BIOMES.filter fun b =>
      b != current && !(fixedForRoll.any fun p => p.1 == b)
    let perOther : ℚ := if others.length = 0 then 0 else remaining / (others.length : ℚ)
    .ok (current :: fixedForRoll.map Prod.fst ++ others,
      (66 : ℚ) :: fixedForRoll.map Prod.snd ++ others.map fun _ => perOther)
  else .error ("Unbekanntes Biom: " ++ current)

/-- `random.choices(choices, weights=weights, k=1)[0]` for a draw
`q ∈ [0, total)`: first element whose cumulative weight exceeds `q`. -/
def weightedChoice (q : ℚ) : List (String × ℚ) → String
  | [] => ""
  | [(s, _)] => s
  | (s, w) :: rest => if q < w then s else weightedChoice (q - w) rest

/-- `roll_biom(current_biom)` (lines 391-420) with the sampler draw
injected: returns `(rolled, label, newCurrent)` where `newCurrent = None`
for the stays-in-place settlement result. -/
def roll_biom (q : ℚ) (current : String) : Except String (String × String × Option String) :=
  match roll_biom_dist current with
  | .error e => .error e
  | .ok (choices, weights) =>
    let rolled := weightedChoice q (choices.zip weights)
    if rolled = "Stadt/Dorf" then .ok (rolled, "Stadt/Dorf (auf " ++ current ++ ")", none)
    else .ok (rolled, rolled, some rolled)

set_option maxHeartbeats 2000000 in
/-- C7: for a current category in the known biome universe, `roll_biom`
weights the current category 66, each other fixed category its fixed weight
(Wasser 5, Unterreich 5, Stadt/Dorf 10), and splits the remaining mass
evenly over the categories that are neither current nor fixed; all weights
are nonnegative and sum to exactly 100.  For a current category outside the
universe it fails with the `UnknownCategory` `ValueError`. -/
theorem roll_biom_weights_spec (current : String) :
    (current ∈ ALL_BIOMES →
      ∃ cs ws, roll_biom_dist current = .ok (cs, ws) ∧
        (cs.zip ws).lookup current = some 66 ∧
        (∀ p ∈ biomFixedWeights, p.1 ≠ current → (cs.zip ws).lookup p.1 = some p.2) ∧
        (∀ b ∈ ALL_BIOMES, b ≠ current → (∀ p ∈ biomFixedWeights, p.1 ≠ b) →
          (cs.zip ws).lookup b =
            some ((100 - 66 -
                ((biomFixedWeights.filter fun p => p.1 != current).map Prod.snd).sum) /
              ((ALL_BIOMES.filter fun b2 => b2 != current &&
                  !((biomFixedWeights.filter fun p => p.1 != current).any
                    fun p => p.1 == b2)).length : ℚ))) ∧
        (∀ w ∈ ws, 0 ≤ w) ∧ ws.sum = 100) ∧
    (current ∉ ALL_BIOMES → isErr (roll_biom_dist current) = true) := by
  constructor
  · intro h
    simp only [ALL_BIOMES, SURFACE_BIOMES, SPECIAL_BIOMES, List.mem_append,
      List.mem_cons, List.not_mem_nil, or_false] at h
    rcases h with (rfl | rfl | rfl | rfl | rfl | rfl | rfl | rfl) | (rfl | rfl | rfl) <;>
      (refine ⟨_, _, rfl, ?_, ?_, ?_, ?_, ?_⟩ <;>
        simp [roll_biom_dist, biomFixedWeights, ALL_BIOMES, SURFACE_BIOMES, SPECIAL_BIOMES,
          List.lookup] <;>
        norm_num)
  · intro h
    unfold roll_biom_dist
    rw [if_neg h]
    rfl

/-- Witness for C7: the claim instantiated at the known category `"Wald"`
and the unknown category `"Mond"`. -/
theorem roll_biom_weights_spec_witness :
    (∃ cs ws, roll_biom_dist "Wald" = .ok (cs, ws) ∧
      (cs.zip ws).lookup "Wald" = some 66 ∧
      (∀ p ∈ biomFixedWeights, p.1 ≠ "Wald" → (cs.zip ws).lookup p.1 = some p.2) ∧
      (∀ b ∈ ALL_BIOMES, b ≠ "Wald" → (∀ p ∈ biomFixedWeights, p.1 ≠ b) →
        (cs.zip ws).lookup b =
          some ((100 - 66 -
              ((biomFixedWeights.filter fun p => p.1 != "Wald").map Prod.snd).sum) /
            ((ALL_BIOMES.filter fun b2 => b2 != "Wald" &&
                !((biomFixedWeights.filter fun p => p.1 != "Wald").any
                  fun p => p.1 == b2)).length : ℚ))) ∧
      (∀ w ∈ ws, 0 ≤ w) ∧ ws.sum = 100) ∧
    isErr (roll_biom_dist "Mond") = true :=
  ⟨(roll_biom_weights_spec "Wald").1 (by decide),
   (roll_biom_weights_spec "Mond").2 (by decide)⟩

/-! ## Conversation flow entry handlers (`rolloracle_start` lines 288-299,
`rollschatz_start` lines 1921-1929) -/

/-- A value stored in `context.user_data`. -/
inductive UDVal where
  | str (s : String)
  | int (n : Int)
deriving DecidableEq, Repr

/-- `context.user_data`: a per-user string-keyed dictionary. -/
def UserData : Type := String → Option UDVal

/-- `user_data.pop(k, None)`. -/
def udPop (ud : UserData) (k : String) : UserData :=
  fun k2 => if k2 = k then none else ud k2

/-- `user_data[k] = v`. -/
def udSet (ud : UserData) (k : String) (v : UDVal) : UserData :=
  fun k2 => if k2 = k then some v else ud k2

/-- `ORACLE_QUESTION, ORACLE_ODDS, ORACLE_CHAOS = range(3)` (line 174). -/
def ORACLE_QUESTION : Nat := 0

def ORACLE_ODDS : Nat := 1

def ORACLE_CHAOS : Nat := 2

/-- `TREASURE_PICK_TYPE, TREASURE_PICK_CR = range(2)` (line 1166). -/
def TREASURE_PICK_TYPE : Nat := 0

def TREASURE_PICK_CR : Nat := 1

/-- State effect of `rolloracle_start` (lines 288-299): pops the three
oracle keys, stores the question when `/rolloracle` had arguments, and
returns the next conversation state. -/
def rolloracle_start (ud : UserData) (args : List String) : UserData × Nat :=
  let ud1 := udPop (udPop (udPop ud "oracle_question") "oracle_odds") "oracle_chaos"
  if args ≠ [] then
    (udSet ud1 "oracle_question" (.str (pyStripStr (joinSpaceStr args))), ORACLE_ODDS)
  else (ud1, ORACLE_QUESTION)

/-- State effect of `rollschatz_start` (lines 1921-1929): pops the two
treasure keys and returns the first collection state. -/
def rollschatz_start (ud : UserData) : UserData × Nat :=
  (udPop (udPop ud "treasure_type") "treasure_cr", TREASURE_PICK_TYPE)

/-- C8: entering a multi-step flow resets that flow's collected state:
after `rolloracle_start` the stored odds and chaos values are gone and the
stored question is exactly the one derived from the new arguments (absent
when none were given), and after `rollschatz_start` the stored treasure type
and challenge-rating selection are gone — independently of whatever a prior
entry had stored. -/
theorem flow_entry_resets_state (ud : UserData) (args : List String) :
    (rolloracle_start ud args).1 "oracle_odds" = none ∧
    (rolloracle_start ud args).1 "oracle_chaos" = none ∧
    (rolloracle_start ud args).1 "oracle_question" =
      (if args ≠ [] then some (.str (pyStripStr (joinSpaceStr args))) else none) ∧
    (rollschatz_start ud).1 "treasure_type" = none ∧
    (rollschatz_start ud).1 "treasure_cr" = none := by
  unfold rolloracle_start rollschatz_start udPop udSet
  by_cases h : args ≠ [] <;> simp [h]

/-! ## Encounter table compiler (`_load_encounters_from_text`, lines 562-637,
with `_canonical_level` lines 510-521 and `_to_int_w100` lines 504-508) -/

/-- A compiled encounter table: category → tier → ordered range entries,
insertion order preserved as in a Python dict. -/
abbrev EncTable : Type :=
  List (String × List (String × List (Nat × Nat × String)))

/-- Characters Python `str.splitlines` splits on (besides `\r\n`). -/
def isLineBreakChar (c : Char) : Bool :=
  let n := c.val
  n == 10 || n == 13 || n == 11 || n == 12 || n == 28 || n == 29 || n == 30 ||
    n == 133 || n == 0x2028 || n == 0x2029

/-- `text.splitlines()`: accumulator-based scan handling `\r\n` pairs. -/
def splitLinesGo (cur : List Char) : List Char → List (List Char)
  | [] => if cur.isEmpty then [] else [cur.reverse]
  | '\r' :: '\n' :: rest => cur.reverse :: splitLinesGo [] rest
  | c :: rest =>
    if isLineBreakChar c then cur.reverse :: splitLinesGo [] rest
    else splitLinesGo (c :: cur) rest

/-- `_clean_enc_line(ln)` (lines 562-569): drop BOMs, replace non-breaking
spaces and Unicode dash variants, strip. -/
def clean_enc_line (ln : List Char) : List Char :=
  let s := ln.filter fun c => c.val != 0xFEFF
  let s := s.map fun c => if c.val = 0xA0 then ' ' else c
  let s := s.map fun c =>
    if c.val = 0x2013 ∨ c.val = 0x2014 ∨ c.val = 0x2212 ∨ c.val = 0x2011 then '-' else c
  pyStrip s

/-- `_to_int_w100` on the two-digit token of a range line: `"00"` is 100. -/
def toIntW100 (p : Char × Char) : Nat :=
  if p.1 = '0' ∧ p.2 = '0' then 100 else digitsToNat [p.1, p.2]

/-- `_canonical_level(a, b)` (lines 510-521). -/
def canonical_level (a b : Nat) : String :=
  if a = 1 ∧ (b = 4 ∨ b = 5) then "1-4"
  else if (a = 5 ∨ a = 6) ∧ b = 10 then "5-10"
  else if a = 11 ∧ b = 16 then "11-16"
  else if a = 17 ∧ b = 20 then "17-20"
  else if a = 11 ∧ b = 20 then "11-20"
  else toString a ++ "-" ++ toString b

/-- The `(?:-|bis)` alternation (case-insensitive), `-` tried first. -/
def dashOrBis : List Char → Option (List Char)
  | '-' :: rest => some rest
  | b :: i :: s2 :: rest =>
    if pyLowerChar b = 'b' ∧ pyLowerChar i = 'i' ∧ pyLowerChar s2 = 's' then some rest
    else none
  | _ => none

/-- The suffix `\s*\(\s*Stufe\s*(\d+)\s*(?:-|bis)\s*(\d+)\s*\)` of the
heading regex, parsed after a candidate biome prefix. -/
def parseStufeTail (cs : List Char) : Option (Nat × Nat) :=
  match cs.dropWhile isPyWs with
  | '(' :: cs1 =>
    match cs1.dropWhile isPyWs with
    | c1 :: c2 :: c3 :: c4 :: c5 :: cs2 =>
      if pyLowerChar c1 = 's' ∧ pyLowerChar c2 = 't' ∧ pyLowerChar c3 = 'u' ∧
          pyLowerChar c4 = 'f' ∧ pyLowerChar c5 = 'e' then
        let cs3 := cs2.dropWhile isPyWs
        let d1 := cs3.takeWhile isAsciiDigit
        if d1 = [] then none
        else
          match dashOrBis ((cs3.dropWhile isAsciiDigit).dropWhile isPyWs) with
          | none => none
          | some cs4 =>
            let cs5 := cs4.dropWhile isPyWs
            let d2 := cs5.takeWhile isAsciiDigit
            if d2 = [] then none
            else
              match (cs5.dropWhile isAsciiDigit).dropWhile isPyWs with
              | ')' :: _ => some (digitsToNat d1, digitsToNat d2)
              | _ => none
      else none
    | _ => none
  | _ => none

/-- The heading regex `^(?P<biome>.+?)\s*\(\s*Stufe\s*(\d+)\s*(?:-|bis)\s*
(\d+)\s*\)`: the non-greedy biome group takes the shortest nonempty prefix
whose remainder parses as the `Stufe` suffix. -/
def headingMatchGo (acc : List Char) : List Char → Option (List Char × Nat × Nat)
  | [] => none
  | c :: rest =>
    match parseStufeTail rest with
    | some (a, b) => some ((c :: acc).reverse, a, b)
    | none => headingMatchGo (c :: acc) rest

/-- Anchored heading match on a full line. -/
def headingMatch (cs : List Char) : Option (List Char × Nat × Nat) :=
  headingMatchGo [] cs

/-- The range regex `^(?P<s>\d{2})(?:\s*(?:-|bis)\s*(?P<e>\d{2}))?\s*
(?P<rest>.*)$`: two digits, an optional end token, and the remainder with
the separating whitespace consumed. -/
def rangeMatch (cs : List Char) : Option ((Char × Char) × Option (Char × Char) × List Char) :=
  match cs with
  | c1 :: c2 :: rest =>
    if isAsciiDigit c1 ∧ isAsciiDigit c2 then
      match dashOrBis (rest.dropWhile isPyWs) with
      | some r2 =>
        match r2.dropWhile isPyWs with
        | e1 :: e2 :: r4 =>
          if isAsciiDigit e1 ∧ isAsciiDigit e2 then
            some ((c1, c2), some (e1, e2), r4.dropWhile isPyWs)
          else some ((c1, c2), none, rest.dropWhile isPyWs)
        | _ => some ((c1, c2), none, rest.dropWhile isPyWs)
      | none => some ((c1, c2), none, rest.dropWhile isPyWs)
    else none
  | _ => none

/-- Mutable state of the compiler loop (lines 583-587). -/
structure EncState where
  data : EncTable
  curBiome : Option String
  curLevel : Option String
  pendingRange : Option (Nat × Nat)
  pendingParts : List String

/-- Association-list lookup modelling Python `dict` access. -/
def alookup {β : Type} : List (String × β) → String → Option β
  | [], _ => none
  | (k, v) :: rest, key => if k = key then some v else alookup rest key

/-- `data.setdefault(bio, {}).setdefault(lv, []).append(e)` at the tier
level, preserving insertion order. -/
def tierAppend (m : List (String × List (Nat × Nat × String))) (lv : String)
    (e : Nat × Nat × String) : List (String × List (Nat × Nat × String)) :=
  match m with
  | [] => [(lv, [e])]
  | (k, es) :: rest =>
    if k = lv then (k, es ++ [e]) :: rest else (k, es) :: tierAppend rest lv e

/-- `data.setdefault(bio, {}).setdefault(lv, []).append(e)`. -/
def dataAppend (d : EncTable) (bio lv : String) (e : Nat × Nat × String) : EncTable :=
  match d with
  | [] => [(bio, [(lv, [e])])]
  | (k, m) :: rest =>
    if k = bio then (k, tierAppend m lv e) :: rest else (k, m) :: dataAppend rest bio lv e

/-- Python truthiness of an optional string (both `None` and `""` falsy). -/
def strOptTruthy : Option String → Bool
  | none => false
  | some s => s != ""

/-- `flush_pending()` (lines 589-597): commit the pending entry when a
category, a tier, a range and nonempty accumulated text are present, then
clear the pending slot. -/
def flushPending (st : EncState) : EncState :=
  let st2 :=
    match st.curBiome, st.curLevel, st.pendingRange with
    | some bio, some lv, some (s, e) =>
      if bio ≠ "" ∧ lv ≠ "" ∧ st.pendingParts ≠ [] then
        let entry := pyStripStr (joinSpaceStr st.pendingParts)
        if entry ≠ "" then { st with data := dataAppend st.data bio lv (s, e, entry) }
        else st
      else st
    | _, _, _ => st
  { st2 with pendingRange := none, pendingParts := [] }

/-- One iteration of the line loop of `_load_encounters_from_text`
(lines 599-634). -/
def procEncLine (st : EncState) (ln : List Char) : EncState :=
  if ln = [] then st
  else
    match headingMatch ln with
    | some (biome, a, b) =>
      let st := flushPending st
      { st with
          curBiome := some (canonical_enc_biom (pyStripStr (String.mk biome))),
          curLevel := some (canonical_level a b) }
    | none =>
      let low := pyLower ln
      if prefOf "w100".toList low then st
      else if subIn "w100".toList low && subIn "begegn".toList low then st
      else
        match rangeMatch ln with
        | some (sTok, eTok, restChars) =>
          if strOptTruthy st.curBiome && strOptTruthy st.curLevel then
            let s := toIntW100 sTok
            let e := match eTok with
              | some p => toIntW100 p
              | none => s
            let se := if e < s then (e, s) else (s, e)
            let rest := pyStripStr (String.mk restChars)
            let st := flushPending st
            { st with
                pendingRange := some se,
                pendingParts := if rest = "" then [] else [rest] }
          else if st.pendingRange.isSome then
            { st with pendingParts := st.pendingParts ++ [String.mk ln] }
          else st
        | none =>
          if st.pendingRange.isSome then
            { st with pendingParts := st.pendingParts ++ [String.mk ln] }
          else st

/-- `_load_encounters_from_text(text)` (lines 571-637). -/
def load_encounters_from_text (text : String) : EncTable :=
  let lines := (splitLinesGo [] text.toList).map clean_enc_line
  let st := lines.foldl procEncLine ⟨[], none, none, none, []⟩
  (flushPending st).data

/-- The entry list of one category and tier (empty when absent). -/
def entriesAt (d : EncTable) (bio lv : String) : List (Nat × Nat × String) :=
  (alookup ((alookup d bio).getD []) lv).getD []

/-- Stepping stone for instance search on the deeply nested table type. -/
instance tierMapDecEq : DecidableEq (String × List (String × List (Nat × Nat × String))) :=
  have h : DecidableEq (List (String × List (Nat × Nat × String))) := inferInstance
  @instDecidableEqProd String _ _ h

/-- C4: compiling the heading `"Wald (Stufe 1-4)"` followed by the range
line `"05-12 Ein Wolf taucht auf"` yields exactly the table mapping
`"Wald" ↦ "1-4" ↦ [(5, 12, "Ein Wolf taucht auf")]`. -/
theorem compile_example_wald :
    load_encounters_from_text "Wald (Stufe 1-4)\n05-12 Ein Wolf taucht auf" =
      [("Wald", [("1-4", [(5, 12, "Ein Wolf taucht auf")])])] := by
  decide

/-! ## Bounds of compiled entries (C5) -/

theorem digit_toNat_bounds (c : Char) (h : isAsciiDigit c = true) :
    48 ≤ c.toNat ∧ c.toNat ≤ 57 := by
  simp only [isAsciiDigit, Bool.and_eq_true, decide_eq_true_eq] at h
  have h1 : ('0' : Char).val ≤ c.val := h.1
  have h2 : c.val ≤ ('9' : Char).val := h.2
  constructor
  · exact h1
  · exact h2

theorem toIntW100_bounds (c1 c2 : Char) (h1 : isAsciiDigit c1 = true)
    (h2 : isAsciiDigit c2 = true) :
    1 ≤ toIntW100 (c1, c2) ∧ toIntW100 (c1, c2) ≤ 100 := by
  obtain ⟨a1, b1⟩ := digit_toNat_bounds c1 h1
  obtain ⟨a2, b2⟩ := digit_toNat_bounds c2 h2
  unfold toIntW100
  by_cases hz : c1 = '0' ∧ c2 = '0'
  · rw [if_pos hz]
    omega
  · rw [if_neg hz]
    have hval : digitsToNat [c1, c2] = 10 * (c1.toNat - 48) + (c2.toNat - 48) := by
      simp [digitsToNat, List.foldl]
    rw [hval]
    have hnz : c1.toNat ≠ 48 ∨ c2.toNat ≠ 48 := by
      by_contra hcon
      push_neg at hcon
      apply hz
      constructor
      · exact Char.eq_of_val_eq (UInt32.ext hcon.1)
      · exact Char.eq_of_val_eq (UInt32.ext hcon.2)
    omega

theorem rangeMatch_digits (cs : List Char) (sTok : Char × Char)
    (eTok : Option (Char × Char)) (rest : List Char)
    (h : rangeMatch cs = some (sTok, eTok, rest)) :
    isAsciiDigit sTok.1 = true ∧ isAsciiDigit sTok.2 = true ∧
      ∀ p, eTok = some p → isAsciiDigit p.1 = true ∧ isAsciiDigit p.2 = true := by
  unfold rangeMatch at h
  rcases cs with _ | ⟨c1, cs0⟩
  · simp at h
  · rcases cs0 with _ | ⟨c2, rest0⟩
    · simp at h
    · try dsimp only at h
      by_cases hd : isAsciiDigit c1 = true ∧ isAsciiDigit c2 = true
      · rw [if_pos hd] at h
        rcases hsep : dashOrBis (rest0.dropWhile isPyWs) with _ | r2
        · rw [hsep] at h
          try dsimp only at h
          simp only [Option.some.injEq, Prod.mk.injEq] at h
          obtain ⟨h1, h2, h3⟩ := h
          subst h1
          subst h2
          exact ⟨hd.1, hd.2, by intro p hp; simp at hp⟩
        · rw [hsep] at h
          try dsimp only at h
          rcases hr2 : r2.dropWhile isPyWs with _ | ⟨e1, r3⟩
          · rw [hr2] at h
            simp only [Option.some.injEq, Prod.mk.injEq] at h
            obtain ⟨h1, h2, h3⟩ := h
            subst h1
            subst h2
            exact ⟨hd.1, hd.2, by intro p hp; simp at hp⟩
          · rw [hr2] at h
            try dsimp only at h
            rcases r3 with _ | ⟨e2, r4⟩
            · simp only [Option.some.injEq, Prod.mk.injEq] at h
              obtain ⟨h1, h2, h3⟩ := h
              subst h1
              subst h2
              exact ⟨hd.1, hd.2, by intro p hp; simp at hp⟩
            · try dsimp only at h
              by_cases hde : isAsciiDigit e1 = true ∧ isAsciiDigit e2 = true
              · rw [if_pos hde] at h
                simp only [Option.some.injEq, Prod.mk.injEq] at h
                obtain ⟨h1, h2, h3⟩ := h
                subst h1
                subst h2
                refine ⟨hd.1, hd.2, ?_⟩
                intro p hp
                obtain rfl := Option.some.inj hp
                exact hde
              · rw [if_neg hde] at h
                simp only [Option.some.injEq, Prod.mk.injEq] at h
                obtain ⟨h1, h2, h3⟩ := h
                subst h1
                subst h2
                exact ⟨hd.1, hd.2, by intro p hp; simp at hp⟩
      · rw [if_neg hd] at h
        simp at h

/-- A committed entry's bounds are ordered and inside the 1..100 domain. -/
def entryOK (x : Nat × Nat × String) : Prop :=
  1 ≤ x.1 ∧ x.1 ≤ x.2.1 ∧ x.2.1 ≤ 100

def tableOK (d : EncTable) : Prop :=
  ∀ p ∈ d, ∀ q ∈ p.2, ∀ x ∈ q.2, entryOK x

def rangeOK (r : Nat × Nat) : Prop :=
  1 ≤ r.1 ∧ r.1 ≤ r.2 ∧ r.2 ≤ 100

def encStateOK (st : EncState) : Prop :=
  tableOK st.data ∧ ∀ r, st.pendingRange = some r → rangeOK r

theorem tierAppend_ok (m : List (String × List (Nat × Nat × String))) (lv : String)
    (e : Nat × Nat × String) (hm : ∀ q ∈ m, ∀ x ∈ q.2, entryOK x) (he : entryOK e) :
    ∀ q ∈ tierAppend m lv e, ∀ x ∈ q.2, entryOK x := by
  induction m with
  | nil =>
    intro q hq x hx
    simp [tierAppend] at hq
    subst hq
    simp at hx
    subst hx
    exact he
  | cons km rest ih =>
    intro q hq x hx
    rcases km with ⟨k, es⟩
    simp only [tierAppend] at hq
    by_cases hk : k = lv
    · rw [if_pos hk] at hq
      rcases List.mem_cons.mp hq with rfl | hq2
      · simp at hx
        rcases hx with hx2 | hx2
        · exact hm (k, es) (by simp) x hx2
        · subst hx2
          exact he
      · exact hm q (by simp [hq2]) x hx
    · rw [if_neg hk] at hq
      rcases List.mem_cons.mp hq with rfl | hq2
      · exact hm (k, es) (by simp) x hx
      · exact ih (fun q2 hq2b x2 hx2 => hm q2 (by simp [hq2b]) x2 hx2) q hq2 x hx

theorem dataAppend_ok (d : EncTable) (bio lv : String) (e : Nat × Nat × String)
    (hd : tableOK d) (he : entryOK e) : tableOK (dataAppend d bio lv e) := by
  induction d with
  | nil =>
    intro p hp q hq x hx
    simp [dataAppend] at hp
    subst hp
    simp at hq
    subst hq
    simp at hx
    subst hx
    exact he
  | cons kd rest ih =>
    intro p hp q hq x hx
    rcases kd with ⟨k, m⟩
    simp only [dataAppend] at hp
    by_cases hk : k = bio
    · rw [if_pos hk] at hp
      rcases List.mem_cons.mp hp with rfl | hp2
      · exact tierAppend_ok m lv e (fun q2 hq2 => hd (k, m) (by simp) q2 hq2) he q hq x hx
      · exact hd p (by simp [hp2]) q hq x hx
    · rw [if_neg hk] at hp
      rcases List.mem_cons.mp hp with rfl | hp2
      · exact hd (k, m) (by simp) q hq x hx
      · exact ih (fun p2 hp2b => hd p2 (by simp [hp2b])) p hp2 q hq x hx

theorem flushPending_ok (st : EncState) (h : encStateOK st) :
    encStateOK (flushPending st) := by
  obtain ⟨hdata, hpend⟩ := h
  unfold flushPending
  rcases hb : st.curBiome with _ | bio <;> rcases hl : st.curLevel with _ | lv <;>
    rcases hr : st.pendingRange with _ | ⟨s, e⟩ <;>
    simp only <;>
    refine ⟨?_, by intro r hr2; simp at hr2⟩ <;> try exact hdata
  · split
    · rename_i hcond
      split
      · exact dataAppend_ok st.data bio lv _ hdata
          (by
            have := hpend (s, e) hr
            exact ⟨this.1, this.2.1, this.2.2⟩)
      · exact hdata
    · exact hdata

theorem procEncLine_ok (st : EncState) (ln : List Char) (h : encStateOK st) :
    encStateOK (procEncLine st ln) := by
  unfold procEncLine
  by_cases hnil : ln = []
  · rw [if_pos hnil]
    exact h
  · rw [if_neg hnil]
    rcases hhead : headingMatch ln with _ | ⟨biome, a, b⟩
    · simp only
      by_cases hw1 : prefOf "w100".toList (pyLower ln) = true
      · rw [if_pos hw1]
        exact h
      · rw [if_neg hw1]
        by_cases hw2 : (subIn "w100".toList (pyLower ln) && subIn "begegn".toList (pyLower ln)) = true
        · rw [if_pos hw2]
          exact h
        · rw [if_neg hw2]
          rcases hrng : rangeMatch ln with _ | ⟨sTok, eTok, restChars⟩
          · simp only
            split
            · exact ⟨h.1, fun r hr => h.2 r hr⟩
            · exact h
          · simp only
            obtain ⟨hd1, hd2, hde⟩ := rangeMatch_digits ln sTok eTok restChars hrng
            obtain ⟨s1, s2⟩ := sTok
            split
            · have hflush := flushPending_ok st h
              refine ⟨hflush.1, ?_⟩
              intro r hr2
              simp only at hr2
              obtain rfl := Option.some.inj hr2
              have hs := toIntW100_bounds s1 s2 hd1 hd2
              have he : 1 ≤ (match eTok with
                  | some p => toIntW100 p
                  | none => toIntW100 (s1, s2)) ∧ (match eTok with
                  | some p => toIntW100 p
                  | none => toIntW100 (s1, s2)) ≤ 100 := by
                rcases eTok with _ | ⟨p1, p2⟩
                · simpa using hs
                · have hp := hde (p1, p2) rfl
                  simpa using toIntW100_bounds p1 p2 hp.1 hp.2
              unfold rangeOK
              split <;> simp only <;> omega
            · split
              · exact ⟨h.1, fun r hr2 => by
                  simp only at hr2
                  exact h.2 r hr2⟩
              · exact h
    · simp only
      have hflush := flushPending_ok st h
      exact ⟨hflush.1, fun r hr2 => by
        simp only at hr2
        exact (flushPending_ok st h).2 r hr2⟩

theorem foldl_procEncLine_ok (lines : List (List Char)) :
    ∀ st : EncState, encStateOK st → encStateOK (lines.foldl procEncLine st) := by
  induction lines with
  | nil => intro st h; exact h
  | cons ln rest ih =>
    intro st h
    exact ih (procEncLine st ln) (procEncLine_ok st ln h)

/-- Pairwise disjointness of the inclusive ranges of an entry list. -/
def rangesDisjoint (l : List (Nat × Nat × String)) : Bool :=
  match l with
  | [] => true
  | x :: rest =>
    (rest.all fun y => decide (y.2.1 < x.1) || decide (x.2.1 < y.1)) && rangesDisjoint rest

/-- Counterexample to C5 as stated: the compiler commits two overlapping
entries (`05-12` and `06-10`) into the same category-and-tier list without
any overlap check. -/
theorem compile_overlap_counterexample :
    entriesAt (load_encounters_from_text
        "Wald (Stufe 1-4)\n05-12 Ein Wolf\n06-10 Ein Baer") "Wald" "1-4" =
      [(5, 12, "Ein Wolf"), (6, 10, "Ein Baer")] ∧
    rangesDisjoint (entriesAt (load_encounters_from_text
        "Wald (Stufe 1-4)\n05-12 Ein Wolf\n06-10 Ein Baer") "Wald" "1-4") = false := by
  decide

/-- C5 (amended): for every input text, every committed entry's bounds lie
within the 1..100 roll domain with ordered bounds; overlap between entries
of one category-and-tier list is possible (the compiler performs no overlap
check — see the counterexample). -/
theorem compile_entries_in_roll_domain (text : String) :
    ∀ p ∈ load_encounters_from_text text, ∀ q ∈ p.2, ∀ x ∈ q.2,
      1 ≤ x.1 ∧ x.1 ≤ x.2.1 ∧ x.2.1 ≤ 100 := by
  have h0 : encStateOK ⟨[], none, none, none, []⟩ := by
    constructor
    · intro p hp
      simp at hp
    · intro r hr
      simp at hr
  have h1 := foldl_procEncLine_ok ((splitLinesGo [] text.toList).map clean_enc_line)
    ⟨[], none, none, none, []⟩ h0
  have h2 := flushPending_ok _ h1
  intro p hp q hq x hx
  exact h2.1 p hp q hq x hx

/-- Witness for the amended C5 at a concrete compiled entry. -/
theorem compile_entries_in_roll_domain_witness :
    1 ≤ (5 : Nat) ∧ (5 : Nat) ≤ 12 ∧ (12 : Nat) ≤ 100 :=
  compile_entries_in_roll_domain "Wald (Stufe 1-4)\n05-12 Ein Wolf taucht auf"
    ("Wald", [("1-4", [(5, 12, "Ein Wolf taucht auf")])]) (by decide)
    ("1-4", [(5, 12, "Ein Wolf taucht auf")]) (by decide)
    (5, 12, "Ein Wolf taucht auf") (by decide)

/-! ## Encounter resolver (`pick_encounter`, lines 675-694) -/

/-- Lexicographic comparison by code point, Python string `<`. -/
def strLtChars : List Char → List Char → Bool
  | [], [] => false
  | [], _ :: _ => true
  | _ :: _, [] => false
  | a :: as, b :: bs =>
    if a.val < b.val then true
    else if b.val < a.val then false
    else strLtChars as bs

/-- Stable insertion into a sorted list (Python `sorted`). -/
def strInsert (x : String) : List String → List String
  | [] => [x]
  | y :: rest =>
    if strLtChars x.toList y.toList then x :: y :: rest else y :: strInsert x rest

/-- `sorted(keys)` for strings. -/
def sortStrs : List String → List String
  | [] => []
  | x :: rest => strInsert x (sortStrs rest)

/-- The gap-sentinel payload (line 694). -/
def gapMsg : String :=
  "Nichts gefunden. Deine Tabelle hat an der Stelle vermutlich eine Lücke."

/-- The `KeyError` message of `pick_encounter` (lines 684-687), listing the
sorted available tiers for the category or `"keine"`. -/
def noTableMsg (bio lv : String) (tf : List (String × List (Nat × Nat × String))) : String :=
  let available := joinCommaStr (sortStrs (tf.map Prod.fst))
  let available2 := if available = "" then "keine" else available
  "Keine Tabelle für " ++ bio ++ " " ++ lv ++ ". Verfügbar: " ++ available2

/-- Tier lookup with the sub-band fallback of lines 680-681: when the exact
tier is absent and the tier is `"11-16"` or `"17-20"`, retry `"11-20"`. -/
def encLookupWithFallback (tf : List (String × List (Nat × Nat × String)))
    (level : String) : Option (List (Nat × Nat × String)) :=
  match alookup tf level with
  | some t => some t
  | none => if level = "11-16" ∨ level = "17-20" then alookup tf "11-20" else none

/-- The `for s, e, txt in table` first-match scan (lines 690-692). -/
def scanEntries (roll : Nat) : List (Nat × Nat × String) → Option String
  | [] => none
  | (s, e, txt) :: rest =>
    if s ≤ roll ∧ roll ≤ e then some txt else scanEntries roll rest

/-- `pick_encounter(biom, level)` (lines 675-694) with the table and the
d100 draw injected (`roll = g % 100 + 1`). -/
def pick_encounter (g : Nat) (table : EncTable) (biom level : String) :
    Except String (Nat × String) :=
  let biomC := canonical_enc_biom biom
  let tf := (alookup table biomC).getD []
  match encLookupWithFallback tf level with
  | none => .error (noTableMsg biomC level tf)
  | some entries =>
    if entries = [] then .error (noTableMsg biomC level tf)
    else
      let roll := g % 100 + 1
      match scanEntries roll entries with
      | some txt => .ok (roll, txt)
      | none => .ok (roll, gapMsg)

theorem alookup_mem {β : Type} :
    ∀ (l : List (String × β)) (k : String) (v : β), alookup l k = some v → (k, v) ∈ l := by
  intro l
  induction l with
  | nil => intro k v h; simp [alookup] at h
  | cons p rest ih =>
    intro k v h
    rcases p with ⟨k2, v2⟩
    simp only [alookup] at h
    by_cases hk : k2 = k
    · rw [if_pos hk] at h
      obtain rfl := Option.some.inj h
      subst hk
      simp
    · rw [if_neg hk] at h
      exact List.mem_cons_of_mem _ (ih k v h)

theorem encLookupWithFallback_mem (tf : List (String × List (Nat × Nat × String)))
    (level : String) (entries : List (Nat × Nat × String))
    (h : encLookupWithFallback tf level = some entries) :
    (level, entries) ∈ tf ∨ ("11-20", entries) ∈ tf := by
  unfold encLookupWithFallback at h
  rcases h0 : alookup tf level with _ | t
  · rw [h0] at h
    dsimp only at h
    split at h
    · exact Or.inr (alookup_mem tf "11-20" entries h)
    · simp at h
  · rw [h0] at h
    dsimp only at h
    obtain rfl := Option.some.inj h
    exact Or.inl (alookup_mem tf level t h0)

theorem scanEntries_some_decomp (roll : Nat) :
    ∀ (l : List (Nat × Nat × String)) (txt : String), scanEntries roll l = some txt →
      ∃ pre s e post, l = pre ++ (s, e, txt) :: post ∧ s ≤ roll ∧ roll ≤ e ∧
        ∀ y ∈ pre, ¬(y.1 ≤ roll ∧ roll ≤ y.2.1) := by
  intro l
  induction l with
  | nil => intro txt h; simp [scanEntries] at h
  | cons x rest ih =>
    intro txt h
    rcases x with ⟨s, e, t⟩
    simp only [scanEntries] at h
    by_cases hc : s ≤ roll ∧ roll ≤ e
    · rw [if_pos hc] at h
      obtain rfl := Option.some.inj h
      exact ⟨[], s, e, rest, by simp, hc.1, hc.2, by intro y hy; simp at hy⟩
    · rw [if_neg hc] at h
      obtain ⟨pre, s2, e2, post, hl, h1, h2, h3⟩ := ih txt h
      refine ⟨(s, e, t) :: pre, s2, e2, post, by rw [hl]; simp, h1, h2, ?_⟩
      intro y hy
      rcases List.mem_cons.mp hy with rfl | hy2
      · exact hc
      · exact h3 y hy2

theorem scanEntries_none_iff (roll : Nat) :
    ∀ l : List (Nat × Nat × String), scanEntries roll l = none ↔
      ∀ y ∈ l, ¬(y.1 ≤ roll ∧ roll ≤ y.2.1) := by
  intro l
  induction l with
  | nil => simp [scanEntries]
  | cons x rest ih =>
    rcases x with ⟨s, e, t⟩
    simp only [scanEntries]
    by_cases hc : s ≤ roll ∧ roll ≤ e
    · rw [if_pos hc]
      constructor
      · intro h
        simp at h
      · intro h
        exact absurd hc (by simpa using h (s, e, t) (by simp))
    · rw [if_neg hc]
      rw [ih]
      constructor
      · intro h y hy
        rcases List.mem_cons.mp hy with rfl | hy2
        · exact hc
        · exact h y hy2
      · intro h y hy
        exact h y (by simp [hy])

/-- C3: `pick_encounter` fails (the `KeyError`) iff after canonicalizing
the category no nonempty entry list exists at the requested tier, with the
`"11-16"`/`"17-20"` sub-bands falling back to `"11-20"`; the error message
lists the sorted tiers available for that category.  When an entry list
exists it never raises: the draw lies in `[1, 100]` and the result is the
first entry in table order whose inclusive range contains the draw, or the
gap-sentinel payload when no entry contains it.  The hypothesis `hne` holds
of all compiler-produced tables, which never store empty entry lists. -/
theorem pick_encounter_spec (g : Nat) (table : EncTable) (biom level : String)
    (hne : ∀ p ∈ table, ∀ q ∈ p.2, q.2 ≠ []) :
    (isErr (pick_encounter g table biom level) = true ↔
      encLookupWithFallback ((alookup table (canonical_enc_biom biom)).getD []) level = none) ∧
    (encLookupWithFallback ((alookup table (canonical_enc_biom biom)).getD []) level = none →
      pick_encounter g table biom level = .error (noTableMsg (canonical_enc_biom biom) level
        ((alookup table (canonical_enc_biom biom)).getD []))) ∧
    (∀ entries, encLookupWithFallback ((alookup table (canonical_enc_biom biom)).getD []) level =
        some entries →
      ∃ r payload, pick_encounter g table biom level = .ok (r, payload) ∧ 1 ≤ r ∧ r ≤ 100 ∧
        ((∃ pre s e txt post, entries = pre ++ (s, e, txt) :: post ∧ s ≤ r ∧ r ≤ e ∧
            payload = txt ∧ ∀ y ∈ pre, ¬(y.1 ≤ r ∧ r ≤ y.2.1)) ∨
          ((∀ y ∈ entries, ¬(y.1 ≤ r ∧ r ≤ y.2.1)) ∧ payload = gapMsg))) := by
  have hentries_ne : ∀ entries,
      encLookupWithFallback ((alookup table (canonical_enc_biom biom)).getD []) level =
        some entries → entries ≠ [] := by
    intro entries heff
    rcases htab : alookup table (canonical_enc_biom biom) with _ | tf
    · rw [htab] at heff
      simp [encLookupWithFallback, alookup] at heff
    · rw [htab] at heff
      simp only [Option.getD] at heff
      have hmem := encLookupWithFallback_mem tf level entries heff
      have htf : (canonical_enc_biom biom, tf) ∈ table := alookup_mem table _ tf htab
      rcases hmem with hm | hm
      · exact hne _ htf _ hm
      · exact hne _ htf _ hm
  simp only [pick_encounter]
  rcases heff : encLookupWithFallback ((alookup table (canonical_enc_biom biom)).getD [])
      level with _ | entries
  · dsimp only
    refine ⟨by simp [isErr], fun _ => rfl, ?_⟩
    intro entries hcon
    simp at hcon
  · have hneq := hentries_ne entries heff
    dsimp only
    rw [if_neg hneq]
    refine ⟨?_, ?_, ?_⟩
    · constructor
      · intro hcon
        exfalso
        rcases hscan : scanEntries (g % 100 + 1) entries with _ | txt <;>
          rw [hscan] at hcon <;> simp [isErr] at hcon
      · intro hcon
        simp at hcon
    · intro hcon
      simp at hcon
    · intro entries2 heq
      obtain rfl := Option.some.inj heq
      have hr1 : 1 ≤ g % 100 + 1 := by omega
      have hr100 : g % 100 + 1 ≤ 100 := by
        have hmlt : g % 100 < 100 := Nat.mod_lt g (by norm_num)
        omega
      rcases hscan : scanEntries (g % 100 + 1) entries with _ | txt
      · refine ⟨g % 100 + 1, gapMsg, rfl, hr1, hr100, Or.inr ⟨?_, rfl⟩⟩
        exact (scanEntries_none_iff (g % 100 + 1) entries).mp hscan
      · obtain ⟨pre, s, e, post, hl, h1, h2, h3⟩ :=
          scanEntries_some_decomp (g % 100 + 1) entries txt hscan
        exact ⟨g % 100 + 1, txt, rfl, hr1, hr100,
          Or.inl ⟨pre, s, e, txt, post, hl, h1, h2, rfl, h3⟩⟩

/-- A one-entry table for the C3 witness. -/
def encWitnessTable : EncTable :=
  [("Wald", [("1-4", [(5, 12, "Wolf")])])]

/-- Witness for C3: on the one-entry table, category `"wald"` (canonicalized
to `"Wald"`), tier `"1-4"` and a draw of 7, the resolver returns the
covering entry. -/
theorem pick_encounter_spec_witness :
    ∃ r payload, pick_encounter 6 encWitnessTable "wald" "1-4" = .ok (r, payload) ∧
      1 ≤ r ∧ r ≤ 100 ∧
      ((∃ pre s e txt post, ([(5, 12, "Wolf")] : List (Nat × Nat × String)) =
          pre ++ (s, e, txt) :: post ∧ s ≤ r ∧ r ≤ e ∧
          payload = txt ∧ ∀ y ∈ pre, ¬(y.1 ≤ r ∧ r ≤ y.2.1)) ∨
        ((∀ y ∈ ([(5, 12, "Wolf")] : List (Nat × Nat × String)),
            ¬(y.1 ≤ r ∧ r ≤ y.2.1)) ∧ payload = gapMsg)) :=
  (pick_encounter_spec 6 encWitnessTable "wald" "1-4" (by decide)).2.2
    [(5, 12, "Wolf")] (by decide)

/-! ## Inline dice substitution (`roll_inline_w_dice`, lines 696-717) -/

/-- `mod_raw.replace(" ", "")`. -/
def removeSpaces (l : List Char) : List Char :=
  l.filter fun c => c ≠ ' '

/-- Python `int(str)`: surrounding whitespace stripped, one optional sign,
then a nonempty digit run and nothing else; `none` models the
`ValueError`. -/
def pyIntParse (l : List Char) : Option Int :=
  match pyStrip l with
  | '+' :: rest =>
    if rest ≠ [] ∧ rest.all isAsciiDigit then some ((digitsToNat rest : Nat) : Int) else none
  | '-' :: rest =>
    if rest ≠ [] ∧ rest.all isAsciiDigit then some (-((digitsToNat rest : Nat) : Int)) else none
  | l2 =>
    if l2 ≠ [] ∧ l2.all isAsciiDigit then some ((digitsToNat l2 : Nat) : Int) else none

/-- Attempt of `_W_DICE_EXPR = (\d+)\s*[Ww]\s*(\d+)(\s*[+-]\s*\d+)?` at the
head of `cs`: on success returns the count digits, the sides digits, the
optional raw modifier group text, and the unconsumed remainder. -/
def matchWAt (cs : List Char) : Option (List Char × List Char × Option (List Char) × List Char) :=
  if cs.takeWhile isAsciiDigit = [] then none
  else
    match (cs.dropWhile isAsciiDigit).dropWhile isPyWs with
    | c :: cs2 =>
      if c = 'w' ∨ c = 'W' then
        if (cs2.dropWhile isPyWs).takeWhile isAsciiDigit = [] then none
        else
          let d1 := cs.takeWhile isAsciiDigit
          let d2 := (cs2.dropWhile isPyWs).takeWhile isAsciiDigit
          let cs4 := (cs2.dropWhile isPyWs).dropWhile isAsciiDigit
          let wsm := cs4.takeWhile isPyWs
          match cs4.dropWhile isPyWs with
          | m :: cs5 =>
            if m = '+' ∨ m = '-' then
              let ws2 := cs5.takeWhile isPyWs
              let cs6 := cs5.dropWhile isPyWs
              let d3 := cs6.takeWhile isAsciiDigit
              if d3 = [] then some (d1, d2, none, cs4)
              else some (d1, d2, some (wsm ++ [m] ++ ws2 ++ d3), cs6.dropWhile isAsciiDigit)
            else some (d1, d2, none, cs4)
          | [] => some (d1, d2, none, cs4)
      else none
    | [] => none

/-- Trace line of one substitution (line 713). -/
def wDetailLine (count sides : Nat) (mod : Int) (rolls : List Nat) (total : Int) : String :=
  toString count ++ "W" ++ toString sides ++
    (if mod = 0 then "" else if mod < 0 then toString mod else "+" ++ toString mod) ++
    " = " ++ toString total ++ " (Würfe: " ++ joinCommaNat rolls ++ ")"

/-- The left-to-right scan-and-replace of `re.sub` with the `repl` closure
of `roll_inline_w_dice` (lines 698-717); structurally recursive on a fuel
bounding the scan steps.  The two `.error` cases model the `ValueError`s of
`int()` on an unparsable modifier and of `random.randint(1, 0)`. -/
def rollInlineFuel (g : Nat → Nat) : Nat → Nat → List Char → Except String (List Char × List String)
  | 0, _, _ => .ok ([], [])
  | fuel + 1, idx, cs =>
    match cs with
    | [] => .ok ([], [])
    | c :: rest =>
      match matchWAt (c :: rest) with
      | some (d1, d2, modRaw, rest2) =>
        match (match modRaw with
               | none => some (0 : Int)
               | some m => pyIntParse (removeSpaces m)) with
        | none => .error "invalid literal for int"
        | some mod =>
          if digitsToNat d2 = 0 ∧ digitsToNat d1 ≠ 0 then .error "empty range for randrange"
          else
            match rollInlineFuel g fuel (idx + digitsToNat d1) rest2 with
            | .error e => .error e
            | .ok (txt, det) =>
              .ok ((toString (((diceRolls g idx (digitsToNat d1) (digitsToNat d2)).sum : Int) +
                    mod)).toList ++ txt,
                wDetailLine (digitsToNat d1) (digitsToNat d2) mod
                  (diceRolls g idx (digitsToNat d1) (digitsToNat d2))
                  (((diceRolls g idx (digitsToNat d1) (digitsToNat d2)).sum : Int) + mod) :: det)
      | none =>
        match rollInlineFuel g fuel idx rest with
        | .error e => .error e
        | .ok (txt, det) => .ok (c :: txt, det)

/-- `roll_inline_w_dice(text)` (lines 698-717) with the random source
injected. -/
def roll_inline_w_dice (g : Nat → Nat) (text : String) : Except String (String × List String) :=
  match rollInlineFuel g text.toList.length 0 text.toList with
  | .error e => .error e
  | .ok (txt, det) => .ok (String.mk txt, det)

/-- One segment of the `re.sub` decomposition of a payload: a character
outside any match, or one matched dice sub-expression. -/
inductive WSeg where
  | lit (c : Char)
  | roll (countDigits sidesDigits : List Char) (modRaw : Option (List Char))
deriving DecidableEq, Repr

/-- The segment decomposition the scan of `re.sub` induces on a string. -/
def wSegsFuel : Nat → List Char → List WSeg
  | 0, _ => []
  | fuel + 1, cs =>
    match cs with
    | [] => []
    | c :: rest =>
      match matchWAt (c :: rest) with
      | some (d1, d2, modRaw, rest2) => .roll d1 d2 modRaw :: wSegsFuel fuel rest2
      | none => .lit c :: wSegsFuel fuel rest

/-- Segment decomposition of a full string. -/
def wSegs (cs : List Char) : List WSeg :=
  wSegsFuel cs.length cs

/-- A matched sub-expression on which the `repl` closure does not raise:
`sides = 0` forces `count = 0` (otherwise `randint(1, 0)` raises) and any
modifier group parses as an `int`. -/
def wSegOK : WSeg → Prop
  | .lit _ => True
  | .roll d1 d2 modRaw =>
    (digitsToNat d2 = 0 → digitsToNat d1 = 0) ∧
    ∀ m, modRaw = some m → (pyIntParse (removeSpaces m)).isSome = true

/-- Value of an optional modifier group. -/
def wModValue (modRaw : Option (List Char)) : Int :=
  match modRaw with
  | none => 0
  | some m => (pyIntParse (removeSpaces m)).getD 0

/-- Dice count a segment consumes from the draw stream. -/
def segDice : WSeg → Nat
  | .lit _ => 0
  | .roll d1 _ _ => digitsToNat d1

/-- Rendering of one segment: literal characters unchanged, a match
replaced by the decimal rendering of draws-sum plus modifier. -/
def segRender (g : Nat → Nat) (idx : Nat) : WSeg → List Char
  | .lit c => [c]
  | .roll d1 d2 modRaw =>
    (toString (((diceRolls g idx (digitsToNat d1) (digitsToNat d2)).sum : Int) +
      wModValue modRaw)).toList

/-- Rendering of a segment list, threading the draw-stream index. -/
def renderSegs (g : Nat → Nat) (idx : Nat) : List WSeg → List Char
  | [] => []
  | s :: rest => segRender g idx s ++ renderSegs g (idx + segDice s) rest

/-- Number of match segments. -/
def countRolls : List WSeg → Nat
  | [] => 0
  | .roll _ _ _ :: rest => countRolls rest + 1
  | .lit _ :: rest => countRolls rest

/-- All draws of a segment list, paired with their `sides`. -/
def wDrawPairs (g : Nat → Nat) (idx : Nat) : List WSeg → List (Nat × Nat)
  | [] => []
  | .roll d1 d2 _ :: rest =>
    (diceRolls g idx (digitsToNat d1) (digitsToNat d2)).map (fun r => (r, digitsToNat d2)) ++
      wDrawPairs g (idx + digitsToNat d1) rest
  | .lit _ :: rest => wDrawPairs g idx rest

theorem rollInline_renders (g : Nat → Nat) :
    ∀ (fuel idx : Nat) (cs : List Char), (∀ s ∈ wSegsFuel fuel cs, wSegOK s) →
      ∃ txt det, rollInlineFuel g fuel idx cs = .ok (txt, det) ∧
        txt = renderSegs g idx (wSegsFuel fuel cs) ∧
        det.length = countRolls (wSegsFuel fuel cs) ∧
        ∀ p ∈ wDrawPairs g idx (wSegsFuel fuel cs), 1 ≤ p.1 ∧ p.1 ≤ p.2 := by
  intro fuel
  induction fuel with
  | zero =>
    intro idx cs hok
    exact ⟨[], [], rfl, rfl, rfl, by intro p hp; simp [wSegsFuel, wDrawPairs] at hp⟩
  | succ fuel ih =>
    intro idx cs hok
    rcases cs with _ | ⟨c, rest⟩
    · exact ⟨[], [], rfl, rfl, rfl, by intro p hp; simp [wSegsFuel, wDrawPairs] at hp⟩
    · simp only [wSegsFuel] at hok ⊢
      rcases hm : matchWAt (c :: rest) with _ | ⟨d1, d2, modRaw, rest2⟩
      · rw [hm] at hok
        obtain ⟨txt, det, heq, htxt, hdet, hdraw⟩ :=
          ih idx rest (fun s hs => hok s (by simp [hs]))
        refine ⟨c :: txt, det, ?_, ?_, ?_, ?_⟩
        · simp only [rollInlineFuel, hm, heq]
        · simp only [renderSegs, segRender, segDice, htxt]
          rfl
        · simpa [countRolls] using hdet
        · intro p hp
          simp only [wDrawPairs] at hp
          exact hdraw p hp
      · rw [hm] at hok
        have hheadok : wSegOK (.roll d1 d2 modRaw) := hok _ (by simp)
        obtain ⟨hzero, hmod⟩ := hheadok
        have hnotempty : ¬(digitsToNat d2 = 0 ∧ digitsToNat d1 ≠ 0) := by
          intro hcon
          exact hcon.2 (hzero hcon.1)
        obtain ⟨txt, det, heq, htxt, hdet, hdraw⟩ :=
          ih (idx + digitsToNat d1) rest2 (fun s hs => hok s (by simp [hs]))
        have hdrawhead : ∀ p ∈ (diceRolls g idx (digitsToNat d1) (digitsToNat d2)).map
            (fun r => (r, digitsToNat d2)), 1 ≤ p.1 ∧ p.1 ≤ p.2 := by
          intro p hp
          obtain ⟨r, hr, rfl⟩ := List.mem_map.mp hp
          simp only [diceRolls, List.mem_map] at hr
          obtain ⟨j, hj, rfl⟩ := hr
          by_cases hs0 : digitsToNat d2 = 0
          · exfalso
            have hc0 := hzero hs0
            simp [hc0] at hj
          · constructor
            · simp [rollDraw]
            · have hlt : g (idx + j) % digitsToNat d2 < digitsToNat d2 :=
                Nat.mod_lt _ (by omega)
              simp only [rollDraw]
              omega
        have hdrawall : ∀ p ∈ wDrawPairs g idx (WSeg.roll d1 d2 modRaw :: wSegsFuel fuel rest2),
            1 ≤ p.1 ∧ p.1 ≤ p.2 := by
          intro p hp
          simp only [wDrawPairs, List.mem_append] at hp
          rcases hp with hp | hp
          · exact hdrawhead p hp
          · exact hdraw p hp
        rcases modRaw with _ | m
        · refine ⟨(toString (((diceRolls g idx (digitsToNat d1) (digitsToNat d2)).sum : Int) +
              wModValue none)).toList ++ txt,
            wDetailLine (digitsToNat d1) (digitsToNat d2) (wModValue none)
              (diceRolls g idx (digitsToNat d1) (digitsToNat d2))
              (((diceRolls g idx (digitsToNat d1) (digitsToNat d2)).sum : Int) +
                wModValue none) :: det, ?_, ?_, ?_, hdrawall⟩
          · simp only [rollInlineFuel, hm]
            try dsimp only [wModValue]
            rw [if_neg hnotempty, heq]
          · simp only [renderSegs, segRender, segDice, htxt]
          · simpa [countRolls] using hdet
        · have hparse : (pyIntParse (removeSpaces m)).isSome = true := hmod m rfl
          rcases hpi : pyIntParse (removeSpaces m) with _ | v
          · rw [hpi] at hparse
            simp at hparse
          · have hval : wModValue (some m) = v := by
              simp [wModValue, hpi]
            refine ⟨(toString (((diceRolls g idx (digitsToNat d1) (digitsToNat d2)).sum : Int) +
                wModValue (some m))).toList ++ txt,
              wDetailLine (digitsToNat d1) (digitsToNat d2) (wModValue (some m))
                (diceRolls g idx (digitsToNat d1) (digitsToNat d2))
                (((diceRolls g idx (digitsToNat d1) (digitsToNat d2)).sum : Int) +
                  wModValue (some m)) :: det, ?_, ?_, ?_, hdrawall⟩
            · simp only [rollInlineFuel, hm]
              try dsimp only
              rw [hpi, hval]
              try dsimp only
              rw [if_neg hnotempty, heq]
            · simp only [renderSegs, segRender, segDice, htxt]
            · simpa [countRolls] using hdet

instance wSegOK_decidable : DecidablePred wSegOK := by
  intro s
  rcases s with c | ⟨d1, d2, modRaw⟩
  · exact isTrue trivial
  · rcases modRaw with _ | m
    · apply decidable_of_iff (digitsToNat d2 = 0 → digitsToNat d1 = 0)
      constructor
      · intro h
        exact ⟨h, by intro m hm; simp at hm⟩
      · intro h
        exact h.1
    · apply decidable_of_iff ((digitsToNat d2 = 0 → digitsToNat d1 = 0) ∧
        (pyIntParse (removeSpaces m)).isSome = true)
      constructor
      · intro h
        refine ⟨h.1, ?_⟩
        intro m2 hm2
        obtain rfl := Option.some.inj hm2
        exact h.2
      · intro h
        exact ⟨h.1, h.2 m rfl⟩

/-- C9 (amended): for every payload string in which each matched dice
sub-expression is benign — `sides = 0` only with `count = 0`, and any
modifier group parses as an `int` — `roll_inline_w_dice` succeeds,
replaces each match in place with the decimal rendering of its rolled
total (the sum of `count` draws each in `[1, sides]`, plus the modifier),
leaves all text outside the matches unchanged, and records exactly one
trace line per substitution.  A match with `sides = 0` and a nonzero count
makes the call raise instead (see the counterexample). -/
theorem roll_inline_w_dice_spec (g : Nat → Nat) (text : String)
    (hok : ∀ s ∈ wSegs text.toList, wSegOK s) :
    ∃ out det, roll_inline_w_dice g text = .ok (out, det) ∧
      out.toList = renderSegs g 0 (wSegs text.toList) ∧
      det.length = countRolls (wSegs text.toList) ∧
      ∀ p ∈ wDrawPairs g 0 (wSegs text.toList), 1 ≤ p.1 ∧ p.1 ≤ p.2 := by
  obtain ⟨txt, det, heq, htxt, hdet, hdraw⟩ :=
    rollInline_renders g text.toList.length 0 text.toList hok
  refine ⟨String.mk txt, det, ?_, ?_, hdet, hdraw⟩
  · unfold roll_inline_w_dice
    rw [heq]
  · simpa using htxt

/-- Witness for the amended C9: `"Der 2w6+1 Ork"` with the all-zero draw
stream becomes `"Der 3 Ork"` with one trace line, draws in range. -/
theorem roll_inline_w_dice_spec_witness :
    ∃ out det, roll_inline_w_dice gZero "Der 2w6+1 Ork" = .ok (out, det) ∧
      out.toList = renderSegs gZero 0 (wSegs ("Der 2w6+1 Ork").toList) ∧
      det.length = countRolls (wSegs ("Der 2w6+1 Ork").toList) ∧
      ∀ p ∈ wDrawPairs gZero 0 (wSegs ("Der 2w6+1 Ork").toList), 1 ≤ p.1 ∧ p.1 ≤ p.2 :=
  roll_inline_w_dice_spec gZero "Der 2w6+1 Ork" (by decide)

/-- Counterexample to C9 as stated: the payload `"1w0"` matches the dice
sub-expression pattern with `sides = 0`, and `random.randint(1, 0)` raises,
so the call fails instead of substituting a rolled total. -/
theorem roll_inline_w_dice_counterexample :
    isErr (roll_inline_w_dice gZero "1w0") = true := by
  decide

end Dicebot
